import Mathlib

/-!
Verification development for the adaptive anonymizer of financial
transactions (`src/processors/adaptive_anonymizer.py`).

The Python module is shallowly embedded:

* Python strings are `List Char` (`Str`); the helper functions `pyLower`,
  `pyFind`, `pyIntParse`, … model the corresponding `str`/`int` operations.
  The character-class predicates are scoped to the code points this
  development actually exercises: ASCII, the Arabic-Indic decimal digits
  U+0660–U+0669 (accepted by both `str.isdigit` and `int`), and the
  superscript digits ¹ ² ³ (accepted by `str.isdigit` but rejected by
  `int`, which is the behaviour the credit-card validator inherits).
* Python `float` arithmetic on the small decimal constants of the module is
  modelled with `ℚ`.
* fallible Python code (functions that can raise) returns `Except PyErr`.
* the external collaborators (the Presidio analyzer and the MD5 hex digest
  used by the `hash` replacement method) are injected as function
  parameters, exactly as the spec treats them (interfaces only).
-/

/-- Python exceptions that the embedded code can raise. -/
inductive PyErr where
  | valueError : PyErr
  | typeError : PyErr
deriving DecidableEq

/-- A Python string, as its sequence of characters. -/
abbrev Str := List Char

/-- ASCII decimal digit (regex `\d` in the ASCII fragment of the model). -/
def isDigitA (c : Char) : Bool := decide ('0' ≤ c) && decide (c ≤ '9')

/-- ASCII uppercase letter. -/
def isUpperA (c : Char) : Bool := decide ('A' ≤ c) && decide (c ≤ 'Z')

/-- ASCII lowercase letter. -/
def isLowerA (c : Char) : Bool := decide ('a' ≤ c) && decide (c ≤ 'z')

/-- ASCII letter. -/
def isAlphaA (c : Char) : Bool := isUpperA c || isLowerA c

/-- Regex word character `\w` (ASCII fragment): letters, digits, underscore. -/
def isWordChar (c : Char) : Bool := isDigitA c || isAlphaA c || decide (c = '_')

/-- Regex whitespace `\s` (ASCII fragment): space, tab, newline, carriage
return, vertical tab, form feed. -/
def isSpaceC (c : Char) : Bool :=
  decide (c = ' ') || decide (c = '\t') || decide (c = '\n') || decide (c = '\r') ||
  decide (c = '\x0b') || decide (c = '\x0c')

/-- Model of `str.upper` on a single character (ASCII fragment). -/
def toUpperA (c : Char) : Char :=
  if isLowerA c then Char.ofNat (c.toNat - 32) else c

/-- Model of `str.lower` on a single character (ASCII fragment). -/
def toLowerA (c : Char) : Char :=
  if isUpperA c then Char.ofNat (c.toNat + 32) else c

/-- Model of `str.lower`. -/
def pyLower (s : Str) : Str := s.map toLowerA

/-- Decimal digit value accepted by Python's `int` for a single character:
ASCII digits and (as representatives of the other Unicode `Nd` digits)
the Arabic-Indic digits U+0660–U+0669. -/
def pyDigitVal? (c : Char) : Option Nat :=
  if isDigitA c then some (c.toNat - 48)
  else if 0x660 ≤ c.toNat && c.toNat ≤ 0x669 then some (c.toNat - 0x660)
  else none

/-- Model of `str.isdigit` on one character: every digit `int` accepts, plus
the superscript digits, which have Unicode property Numeric_Type=Digit and
therefore satisfy `str.isdigit` although `int` rejects them. -/
def pyIsDigit (c : Char) : Bool :=
  (pyDigitVal? c).isSome || decide (c = '¹') || decide (c = '²') || decide (c = '³')

/-- Model of `str.isdigit` on a string: nonempty and all characters digits. -/
def pyIsDigitStr (s : Str) : Bool := !s.isEmpty && s.all pyIsDigit

/-- Helper for `pyFind`: first index `≥ i` at which `needle` occurs in the
remaining hay, `-1` if it never does. -/
def pyFindAux (needle : Str) : Str → Nat → Int
  | [], i => if needle.isPrefixOf ([] : Str) then (i : Int) else -1
  | c :: t, i => if needle.isPrefixOf (c :: t) then (i : Int) else pyFindAux needle t (i + 1)

/-- Model of `str.find`: index of the first occurrence, `-1` if absent. -/
def pyFind (hay needle : Str) : Int := pyFindAux needle hay 0

/-- Model of the Python substring test `needle in hay`. -/
def pyContains (hay needle : Str) : Bool := decide (0 ≤ pyFind hay needle)

/-- Digits (with single underscores allowed between digits) after the first
digit of an `int` literal; accumulates the value. -/
def pyDigitsRun : Str → Nat → Option Nat
  | [], acc => some acc
  | c :: rest, acc =>
    if c = '_' then
      match rest with
      | [] => none
      | c2 :: rest2 =>
        match pyDigitVal? c2 with
        | some d => pyDigitsRun rest2 (acc * 10 + d)
        | none => none
    else
      match pyDigitVal? c with
      | some d => pyDigitsRun rest (acc * 10 + d)
      | none => none

/-- Unsigned part of an `int` literal: a digit, then digits with optional
single underscores between them. -/
def pyUnsignedParse : Str → Option Nat
  | [] => none
  | c :: rest =>
    match pyDigitVal? c with
    | some d => pyDigitsRun rest d
    | none => none

/-- Strip leading and trailing whitespace, as `int` does before parsing. -/
def pyStrip (s : Str) : Str :=
  ((s.dropWhile isSpaceC).reverse.dropWhile isSpaceC).reverse

/-- Model of Python's `int(s)`: `none` when `int` raises `ValueError`
(`pyUnsignedParse` already returns `none` on the empty remainder, which
covers the empty and sign-only strings). -/
def pyIntParse (s : Str) : Option Int :=
  let t := pyStrip s
  if t.head? = some '+' then (pyUnsignedParse t.tail).map Int.ofNat
  else if t.head? = some '-' then (pyUnsignedParse t.tail).map (fun n => -(n : Int))
  else (pyUnsignedParse t).map Int.ofNat

/-- The decimal digit character for a digit value. -/
def digitCharPy (n : Nat) : Char :=
  if n = 0 then '0' else if n = 1 then '1' else if n = 2 then '2'
  else if n = 3 then '3' else if n = 4 then '4' else if n = 5 then '5'
  else if n = 6 then '6' else if n = 7 then '7' else if n = 8 then '8' else '9'

/-- Decimal digits of a natural number, as `str` renders them (auxiliary,
with fuel bounding the number of divisions). -/
def natToDigitsAux : Nat → Nat → Str
  | 0, _ => []
  | fuel + 1, n =>
    if n < 10 then [digitCharPy n]
    else natToDigitsAux fuel (n / 10) ++ [digitCharPy (n % 10)]

/-- Model of Python's `str(n)` for a natural number. -/
def natToDigitsPy (n : Nat) : Str := natToDigitsAux (n + 1) n

/-- Python's binary `min` (the first argument wins ties); kept as an
explicit `if` so that closed instances evaluate by `decide`. -/
def pyMin (a b : ℚ) : ℚ := if a ≤ b then a else b

/-- The 23-letter DNI control sequence. -/
def dniLetters : Str := ("TRWAGMYFPDXBNJZSQVHLCKE").data

/-- `_validate_spanish_dni`: length 9, `int` of the first 8 characters,
control letter check; the bare `except` turns any `ValueError` from `int`
into `False`, so the function is `Bool`-valued. -/
def validate_spanish_dni (dni : Str) : Bool :=
  if dni.length ≠ 9 then false
  else
    match pyIntParse (dni.take 8) with
    | none => false
    | some number => dniLetters.getD (number.emod 23).toNat ' ' == toUpperA (dni.getD 8 ' ')

/-- The list comprehension `[int(d) for d in number]`: left to right, the
first character `int` rejects raises `ValueError`. -/
def mapInts : Str → Except PyErr (List Nat)
  | [] => Except.ok []
  | c :: t => do
    let d : Nat ← (match pyDigitVal? c with
      | some d => Except.ok d
      | none => Except.error PyErr.valueError)
    let ds ← mapInts t
    Except.ok (d :: ds)

/-- `_validate_credit_card`: strip separators, require 12–19 digit-like
characters, then the Luhn checksum. `int(d)` on a character that passes
`str.isdigit` but is not a decimal digit (for example `'²'`) raises
`ValueError`, which this function does not catch. -/
def validate_credit_card (number0 : Str) : Except PyErr Bool :=
  let number := number0.filter (fun c => !(isSpaceC c || decide (c = '-')))
  if !pyIsDigitStr number || number.length < 12 || 19 < number.length then Except.ok false
  else do
    let digits : List Nat ← mapInts number
    let len := digits.length
    let doubled : List Nat := digits.enum.map (fun p =>
      if (len - p.1) % 2 = 0 then (if 9 < 2 * p.2 then 2 * p.2 - 9 else 2 * p.2) else p.2)
    Except.ok (decide (doubled.sum % 10 = 0))

/-- Full-string match of the IBAN shape regex `^[A-Z]{2}\d{2}[A-Z0-9]+$`
(`\d` here is a Unicode decimal digit; `[A-Z]`, `[A-Z0-9]` are ASCII). -/
def ibanShape : Str → Bool
  | a :: b :: c :: d :: rest =>
    isUpperA a && isUpperA b && (pyDigitVal? c).isSome && (pyDigitVal? d).isSome &&
    !rest.isEmpty && rest.all (fun x => isUpperA x || isDigitA x)
  | _ => false

/-- `_validate_iban`: strip spaces, check the shape regex, rotate the first
four characters to the end, expand letters to `ord(c) - ord('A') + 10`,
and test the big numeral modulo 97. -/
def validate_iban (iban0 : Str) : Except PyErr Bool :=
  let iban := iban0.filter (fun c => !isSpaceC c)
  if !ibanShape iban then Except.ok false
  else
    let rearranged := iban.drop 4 ++ iban.take 4
    let numeric := (rearranged.map (fun c =>
      if pyIsDigit c then [c] else natToDigitsPy (c.toNat - 65 + 10))).flatten
    match pyIntParse numeric with
    | some n => Except.ok (decide (n.emod 97 = 1))
    | none => Except.error PyErr.valueError

/-!
Hand-compiled matchers for the eight catalog regexes, all applied with
`re.IGNORECASE`.  A matcher receives the whole text and a start position and
returns the length of the match there (`none` if the regex cannot match at
that position).  Each regex below is deterministic at a given position: every
optional element (`\s?`, `[\s-]?`, `[:\s]?`, the phone prefix alternation) is
followed by a pattern whose character class is disjoint from the optional
element's, so the greedy choice never needs to backtrack, except for the
bounded repetition `[A-Z0-9]{8,16}` of `TRANSFER_REF`, whose backtracking is
collapsed into an explicit condition on the run length (see `refM`).
-/

/-- A regex matcher: text, position ↦ length of the match at that position. -/
abbrev Matcher := Str → Nat → Option Nat

/-- Is the character at index `i` a word character (`false` beyond the ends)? -/
def isWordAt (s : Str) (i : Nat) : Bool :=
  match s.get? i with
  | some c => isWordChar c
  | none => false

/-- Regex `\b` at position `i`: word-ness differs between the character
before `i` and the character at `i`. -/
def wordBoundary (s : Str) (i : Nat) : Bool :=
  (if i = 0 then false else isWordAt s (i - 1)) != isWordAt s i

/-- Do `n` consecutive characters starting at `i` all satisfy `p`? -/
def spanCheck (p : Char → Bool) (s : Str) : Nat → Nat → Bool
  | _, 0 => true
  | i, n + 1 =>
    (match s.get? i with
     | some c => p c
     | none => false) && spanCheck p s (i + 1) n

/-- Is the literal (case-sensitive) string `lit` at position `i`? -/
def litAt (s : Str) (i : Nat) : Str → Bool
  | [] => true
  | c :: cs =>
    (match s.get? i with
     | some c2 => decide (c2 = c)
     | none => false) && litAt s (i + 1) cs

/-- Is the literal string `lit` at position `i`, ignoring ASCII case? -/
def litAtCI (s : Str) (i : Nat) : Str → Bool
  | [] => true
  | c :: cs =>
    (match s.get? i with
     | some c2 => decide (toUpperA c2 = toUpperA c)
     | none => false) && litAtCI s (i + 1) cs

/-- Character class of a separator `[\s-]`. -/
def isSepChar (c : Char) : Bool := isSpaceC c || decide (c = '-')

/-- Is there a `[\s-]` separator at index `i`? -/
def sepAt (s : Str) (i : Nat) : Bool :=
  match s.get? i with
  | some c => isSepChar c
  | none => false

/-- DNI control-letter class `[A-HJ-NP-TV-Z]` (uppercase letters except
I, O, U), case-insensitively. -/
def dniLetterClass (c : Char) : Bool :=
  isAlphaA c && !(decide (toUpperA c = 'I') || decide (toUpperA c = 'O') ||
    decide (toUpperA c = 'U'))

/-- `DNI_PATTERN = \b\d{8}[A-HJ-NP-TV-Z]\b`. -/
def dniM : Matcher := fun s i =>
  if wordBoundary s i && spanCheck isDigitA s i 8 &&
     (match s.get? (i + 8) with
      | some c => dniLetterClass c
      | none => false) && wordBoundary s (i + 9)
  then some 9 else none

/-- `NIE_PATTERN = \b[XYZ]\d{7}[A-Z]\b`. -/
def nieM : Matcher := fun s i =>
  if wordBoundary s i &&
     (match s.get? i with
      | some c => decide (toUpperA c = 'X') || decide (toUpperA c = 'Y') ||
          decide (toUpperA c = 'Z')
      | none => false) &&
     spanCheck isDigitA s (i + 1) 7 &&
     (match s.get? (i + 8) with
      | some c => isAlphaA c
      | none => false) && wordBoundary s (i + 9)
  then some 9 else none

/-- `CIF_PATTERN = \b[ABCDEFGHJKLMNPQRSUVW]\d{8}\b`. -/
def cifM : Matcher := fun s i =>
  if wordBoundary s i &&
     (match s.get? i with
      | some c => (("ABCDEFGHJKLMNPQRSUVW").data).contains (toUpperA c)
      | none => false) &&
     spanCheck isDigitA s (i + 1) 8 && wordBoundary s (i + 9)
  then some 9 else none

/-- The `(\s?\d{g})…` tail of the IBAN pattern: for each group size `g`,
optionally one whitespace (the greedy choice is forced: if the next
character is whitespace it cannot start `\d{g}`), then `g` digits.
Returns the position after the last group. -/
def ibanTail (s : Str) : Nat → List Nat → Option Nat
  | j, [] => some j
  | j, g :: gs =>
    let j1 := if (match s.get? j with
                  | some c => isSpaceC c
                  | none => false) then j + 1 else j
    if spanCheck isDigitA s j1 g then ibanTail s (j1 + g) gs else none

/-- `IBAN_ES_PATTERN = \bES\d{2}\s?\d{4}\s?\d{4}\s?\d{2}\s?\d{10}\b`. -/
def ibanM : Matcher := fun s i =>
  if wordBoundary s i && litAtCI s i (("ES").data) && spanCheck isDigitA s (i + 2) 2 then
    match ibanTail s (i + 4) [4, 4, 2, 10] with
    | some j => if wordBoundary s j then some (j - i) else none
    | none => none
  else none

/-- The `(?:\d{4}[\s-]?){n}` groups of the card pattern; the optional
separator is forced exactly when present (a separator can never start the
following `\d{4}`). Returns the position after the groups. -/
def cardGroups (s : Str) : Nat → Nat → Option Nat
  | j, 0 => some j
  | j, n + 1 =>
    if spanCheck isDigitA s j 4 then
      let j1 := if sepAt s (j + 4) then j + 5 else j + 4
      cardGroups s j1 n
    else none

/-- `CARD_PATTERN = \b(?:\d{4}[\s-]?){3}\d{4}\b`. -/
def cardM : Matcher := fun s i =>
  if wordBoundary s i then
    match cardGroups s i 3 with
    | some j =>
      if spanCheck isDigitA s j 4 && wordBoundary s (j + 4) then some (j + 4 - i) else none
    | none => none
  else none

/-- The `(?:[\s-]?\d{2}){n}` pairs of the phone pattern (separator forced
when present, as for the card pattern). -/
def phonePairs (s : Str) : Nat → Nat → Option Nat
  | j, 0 => some j
  | j, n + 1 =>
    let j1 := if sepAt s j then j + 1 else j
    if spanCheck isDigitA s j1 2 then phonePairs s (j1 + 2) n else none

/-- `PHONE_ES_PATTERN = \b(?:(?:\+34|0034)?[\s-]?)?[6789]\d{2}[\s-]?\d{2}[\s-]?\d{2}[\s-]?\d{2}\b`.
The prefix alternation is forced: `+`/`0` can never start `[6789]`, and
`\+34` and `0034` differ in their first character.  Note that a leading
`\b` before `+` only holds when the previous character is a word
character, so `+34…` at the start of the text does not match — the model
reproduces this quirk of the source pattern. -/
def phoneM : Matcher := fun s i =>
  if wordBoundary s i then
    let j0 := if litAt s i (("+34").data) then i + 3
              else if litAt s i (("0034").data) then i + 4 else i
    let j1 := if sepAt s j0 then j0 + 1 else j0
    if (match s.get? j1 with
        | some c => decide (c = '6') || decide (c = '7') || decide (c = '8') ||
            decide (c = '9')
        | none => false) && spanCheck isDigitA s (j1 + 1) 2 then
      match phonePairs s (j1 + 3) 3 with
      | some j => if wordBoundary s j then some (j - i) else none
      | none => none
    else none
  else none

/-- `MERCHANT_CODE_PATTERN = \b[A-Z]{3}\d{6}\b`. -/
def merchantM : Matcher := fun s i =>
  if wordBoundary s i && spanCheck isAlphaA s i 3 && spanCheck isDigitA s (i + 3) 6 &&
     wordBoundary s (i + 9)
  then some 9 else none

/-- Length of the maximal run of characters satisfying `p`. -/
def countWhile (p : Char → Bool) : Str → Nat
  | [] => 0
  | c :: t => if p c then countWhile p t + 1 else 0

/-- Class `[A-Z0-9]` under `IGNORECASE`: ASCII letters and digits. -/
def isAlnumA (c : Char) : Bool := isAlphaA c || isDigitA c

/-- `TRANSFER_REF_PATTERN = \b(?:REF|ref)[:\s]?[A-Z0-9]{8,16}\b` (the
alternation is redundant under `IGNORECASE`).  Let `r` be the maximal
alphanumeric run after the optional `[:\s]`.  The greedy `{8,16}`
repetition with the trailing `\b` succeeds exactly when `8 ≤ r ≤ 16` and
the character after the run is not a word character: if `r > 16` every
backtracking length still faces a word character, and if the character
after the run is `_` (the only ASCII word character outside the class)
every length from `r` down to 8 fails the boundary as well. -/
def refM : Matcher := fun s i =>
  if wordBoundary s i && litAtCI s i (("REF").data) then
    let j1 := if (match s.get? (i + 3) with
                  | some c => decide (c = ':') || isSpaceC c
                  | none => false) then i + 4 else i + 3
    let r := countWhile isAlnumA (s.drop j1)
    if 8 ≤ r && r ≤ 16 && !isWordAt s (j1 + r) then some (j1 + r - i) else none
  else none

/-- `re.finditer` driver: scan positions left to right; on a match of
length `L` continue after the match, otherwise advance one position.
No catalog pattern can match the empty string, so `max L 1 = L`; the
`max` only serves termination.  Fuel `s.length + 1` suffices because every
step advances the position by at least one. -/
def findIterAux (m : Matcher) (s : Str) : Nat → Nat → List (Nat × Nat)
  | _, 0 => []
  | i, fuel + 1 =>
    if i < s.length then
      match m s i with
      | some len => (i, i + len) :: findIterAux m s (i + max len 1) fuel
      | none => findIterAux m s (i + 1) fuel
    else []

/-- All (non-overlapping, leftmost) matches of `m` in `s`, as
`(start, end)` pairs. -/
def findIter (m : Matcher) (s : Str) : List (Nat × Nat) :=
  findIterAux m s 0 (s.length + 1)

/-- Python slice `s[a:b]` for `0 ≤ a ≤ b` (clamped at the ends). -/
def pySlice (s : Str) (a b : Nat) : Str := (s.drop a).take (b - a)

/-!
The data model of the anonymizer: entities, the static pattern catalog,
confidence scoring, overlap resolution, and the three-tier `process`
pipeline with its in-memory statistics state.
-/

/-- A detected entity, as the Python dict
`{entity_type, text, start, end, confidence, method}` (the key `end` is a
Lean keyword and is called `stop` here). -/
structure Entity where
  entity_type : Str
  text : Str
  start : Nat
  stop : Nat
  confidence : ℚ
  method : Str
deriving DecidableEq

/-- One entry of the static pattern catalog. -/
structure PatternDef where
  matcher : Matcher
  context : List Str
  confidence : ℚ
  validator : Option (Str → Except PyErr Bool)

/-- The static catalog `_load_static_patterns`, in the dict's insertion
order.  Only `CREDIT_CARD` carries a validator, exactly as in the source
(the DNI and IBAN validators exist but are not registered there). -/
def static_patterns : List (Str × PatternDef) := [
  (("ES_DNI").data,
    ⟨dniM, [("dni").data, ("documento").data, ("identidad").data, ("nif").data], (9 : ℚ)/10, none⟩),
  (("ES_NIE").data,
    ⟨nieM, [("nie").data, ("extranjero").data, ("residencia").data], (9 : ℚ)/10, none⟩),
  (("ES_CIF").data,
    ⟨cifM, [("cif").data, ("empresa").data, ("sociedad").data, ("fiscal").data], (85 : ℚ)/100, none⟩),
  (("ES_IBAN").data,
    ⟨ibanM, [("iban").data, ("cuenta").data, ("bancaria").data, ("transferencia").data],
      (95 : ℚ)/100, none⟩),
  (("CREDIT_CARD").data,
    ⟨cardM, [("tarjeta").data, ("visa").data, ("mastercard").data, ("credito").data,
      ("debito").data], (85 : ℚ)/100, some validate_credit_card⟩),
  (("ES_PHONE").data,
    ⟨phoneM, [("telefono").data, ("movil").data, ("contacto").data, ("whatsapp").data],
      (8 : ℚ)/10, none⟩),
  (("MERCHANT_CODE").data,
    ⟨merchantM, [("comercio").data, ("establecimiento").data, ("merchant").data,
      ("tpv").data], (7 : ℚ)/10, none⟩),
  (("TRANSFER_REF").data,
    ⟨refM, [("referencia").data, ("transferencia").data, ("operacion").data], (75 : ℚ)/100, none⟩)]

/-- `self.static_patterns.get(entity_type, {})`. -/
def catalogFind (ty : Str) : Option PatternDef :=
  (static_patterns.find? (fun p => p.1 == ty)).map (fun p => p.2)

/-- `.get(entity_type, {}).get('confidence', 0.5)`. -/
def catalogConfidence (ty : Str) : ℚ :=
  match catalogFind ty with
  | some pd => pd.confidence
  | none => (5 : ℚ)/10

/-- `.get(entity_type, {}).get('context', [])`. -/
def catalogContext (ty : Str) : List Str :=
  match catalogFind ty with
  | some pd => pd.context
  | none => []

/-- `.get(entity_type, {}).get('validator')`. -/
def catalogValidator (ty : Str) : Option (Str → Except PyErr Bool) :=
  match catalogFind ty with
  | some pd => pd.validator
  | none => none

/-- The context-bonus loop of `_calculate_confidence`: walk the context
keywords in catalog order and stop at the first one contained in the
lowered text, whether or not its distance earns a bonus. `tl` is the
lowered text, `ml` the lowered match. -/
def contextBonusLoop (tl ml : Str) : List Str → ℚ
  | [] => 0
  | w :: ws =>
    if pyContains tl w then
      (let distance := (pyFind tl w - pyFind tl ml).natAbs
       if distance < 20 then (2 : ℚ)/10 else if distance < 50 then (1 : ℚ)/10 else 0)
    else contextBonusLoop tl ml ws

/-- `_calculate_confidence(text, entity_type, match)`: base confidence plus
context bonus plus validation bonus, capped at 1.0.  Calling the
credit-card validator can propagate a `ValueError`. -/
def calculate_confidence (text ty mtext : Str) : Except PyErr ℚ := do
  let base := catalogConfidence ty
  let cb := contextBonusLoop (pyLower text) (pyLower mtext) (catalogContext ty)
  let vb : ℚ ←
    match catalogValidator ty with
    | none => Except.ok 0
    | some v => do
        let ok ← v mtext
        Except.ok (if ok then (15 : ℚ)/100 else -((3 : ℚ)/10))
  Except.ok (pyMin 1 (base + cb + vb))

/-- The overlap test of `_remove_overlaps`:
`entity['start'] < existing['end'] and entity['end'] > existing['start']`. -/
def overlapsB (e ex : Entity) : Bool :=
  decide (e.start < ex.stop) && decide (ex.start < e.stop)

/-- The overlap relation as a proposition (symmetric form). -/
def Olap (a b : Entity) : Prop := a.start < b.stop ∧ b.start < a.stop

/-- The inner loop of `_remove_overlaps`: scan the accepted list for the
first entity overlapping `e`; on overlap either replace it (removing it and
appending `e` at the end — `list.remove` deletes the first equal element,
which is the scanned one, since any earlier equal dict would already have
been the first overlap) or drop `e`; if nothing overlaps, append `e`. -/
def rmLoop (e : Entity) : List Entity → List Entity → List Entity
  | pre, [] => pre ++ [e]
  | pre, ex :: rest =>
    if overlapsB e ex then
      (if ex.confidence < e.confidence then pre ++ rest ++ [e] else pre ++ ex :: rest)
    else rmLoop e (pre ++ [ex]) rest

/-- Stable insertion of an entity into a list sorted ascending by `start`:
the new entity goes after all entities whose `start` is `≤` its own. -/
def insertByStart (e : Entity) : List Entity → List Entity
  | [] => [e]
  | x :: xs => if x.start ≤ e.start then x :: insertByStart e xs else e :: x :: xs

/-- Stable sort by ascending `start`
(`entities.sort(key=lambda x: x['start'])`). -/
def sortByStart (l : List Entity) : List Entity :=
  l.foldl (fun acc e => insertByStart e acc) []

/-- `_remove_overlaps`: sort by start, then run the greedy loop keeping the
higher-confidence entity of each overlapping pair. -/
def remove_overlaps (entities : List Entity) : List Entity :=
  (sortByStart entities).foldl (fun result e => rmLoop e [] result) []

/-- Aggregate confidence:
`sum(e['confidence'] for e in entities) / len(entities) if entities else 0`. -/
def avgConf (l : List Entity) : ℚ :=
  if l.isEmpty then 0 else (l.map (fun e => e.confidence)).sum / (l.length : ℚ)

/-- The entities one catalog pattern contributes in
`analyze_with_static_rules`. -/
def entitiesForPattern (text ty : Str) (pd : PatternDef) : Except PyErr (List Entity) :=
  (findIter pd.matcher text).mapM (fun ab => do
    let m := pySlice text ab.1 ab.2
    let conf ← calculate_confidence text ty m
    Except.ok (Entity.mk ty m ab.1 ab.2 conf (("static").data)))

/-- All candidate entities of the static tier, in catalog order. -/
def collectStatic (text : Str) : Except PyErr (List Entity) :=
  static_patterns.foldlM (fun acc p => do
    let es ← entitiesForPattern text p.1 p.2
    Except.ok (acc ++ es)) []

/-- `analyze_with_static_rules`: match every catalog pattern, score each
match, resolve overlaps, and return the list with its mean confidence. -/
def analyze_with_static_rules (text : Str) : Except PyErr (List Entity × ℚ) := do
  let es ← collectStatic text
  let es2 := remove_overlaps es
  Except.ok (es2, avgConf es2)

/-- A span/score produced by the external Presidio analyzer. -/
structure RawEnt where
  entity_type : Str
  start : Nat
  stop : Nat
  score : ℚ

/-- The injected Presidio collaborator: text ↦ recognizer results. -/
abbrev PresidioFn := Str → List RawEnt

/-- `analyze_with_presidio`: delegate to the collaborator and wrap its
results as entities tagged `presidio`. -/
def analyze_with_presidio (analyzer : PresidioFn) (text : Str) : List Entity × ℚ :=
  let es := (analyzer text).map (fun r =>
    Entity.mk r.entity_type (pySlice text r.start r.stop) r.start r.stop r.score
      (("presidio").data))
  (es, avgConf es)

/-- `_simulate_llm_validation`: the deterministic stand-in for the LLM
adjudicator; reuses the checksum validators per entity type. -/
def simulate_llm_validation (e : Entity) : Except PyErr Bool :=
  if e.entity_type = ("ES_DNI").data then
    Except.ok (decide (e.text.length = 9) && validate_spanish_dni e.text)
  else if e.entity_type = ("CREDIT_CARD").data then validate_credit_card e.text
  else if e.entity_type = ("ES_IBAN").data then validate_iban e.text
  else Except.ok (decide ((4 : ℚ)/10 < e.confidence))

/-- The in-place update a confirmed entity receives in `analyze_with_llm`. -/
def boostEntity (e : Entity) : Entity :=
  { e with confidence := pyMin 1 (e.confidence + (3 : ℚ)/10), method := ("llm_validated").data }

/-- `analyze_with_llm`: keep each uncertain entity the simulated
adjudicator confirms, boosting its confidence by 0.3 (capped at 1.0) and
tagging it `llm_validated`; drop the rest. -/
def analyze_with_llm (_text : Str) : List Entity → Except PyErr (List Entity)
  | [] => Except.ok []
  | e :: rest => do
    let ok ← simulate_llm_validation e
    let tail ← analyze_with_llm _text rest
    if ok then Except.ok (boostEntity e :: tail) else Except.ok tail

/-- The engine's configuration (constructor arguments; the learned-patterns
file is irrelevant to the claims and omitted).  `enable_presidio` also
stands for `self.analyzer` being present: `__init__` clears the flag
whenever the analyzer cannot be built. -/
structure AnonCfg where
  confidence_threshold : ℚ
  llm_threshold : ℚ
  enable_llm : Bool
  enable_presidio : Bool

/-- The default constructor arguments. -/
def defaultCfg : AnonCfg := ⟨(85 : ℚ)/100, (50 : ℚ)/100, false, false⟩

/-- One record of `self.processing_stats` (the wall-clock timestamp is
outside the model; the measured latency is the injected `time_ms`). -/
structure StatRecord where
  text_length : Nat
  entities_found : Nat
  confidence : ℚ
  processing_time_ms : ℚ
deriving DecidableEq

/-- One record of `self.uncertain_cases`. -/
structure UncertainRecord where
  text : Str
  entities : List Entity
  confidence : ℚ
deriving DecidableEq

/-- The engine's mutable statistics state. -/
structure AnonState where
  processing_stats : List StatRecord
  uncertain_cases : List UncertainRecord
deriving DecidableEq

/-- `_record_processing`: always append one stats record; additionally
queue an uncertain case (with the text truncated to 100 characters) when
the confidence is below `llm_threshold`. -/
def record_processing (cfg : AnonCfg) (text : Str) (entities : List Entity) (conf : ℚ)
    (time_ms : ℚ) (st : AnonState) : AnonState :=
  ⟨st.processing_stats ++ [⟨text.length, entities.length, conf, time_ms⟩],
   if conf < cfg.llm_threshold then
     st.uncertain_cases ++ [⟨text.take 100, entities, conf⟩]
   else st.uncertain_cases⟩

/-- The tier-3 block of `process` (lines 598–607): when the LLM is enabled
and the combined confidence is still below `llm_threshold`, split off the
uncertain entities and, if there are any, replace them by the adjudicated
subset.  Returns the final list/confidence and, as a trace, the list that
was sent to the LLM (if it was invoked). -/
def llmStage (cfg : AnonCfg) (text : Str) (all : List Entity) (cc : ℚ) :
    Except PyErr ((List Entity × ℚ) × Option (List Entity)) :=
  if cfg.enable_llm && decide (cc < cfg.llm_threshold) then
    let uncertain := all.filter (fun e => decide (e.confidence < cfg.llm_threshold))
    let certain := all.filter (fun e => decide (cfg.llm_threshold ≤ e.confidence))
    if uncertain.isEmpty then Except.ok ((all, cc), none)
    else do
      let validated ← analyze_with_llm text uncertain
      let all2 := certain ++ validated
      Except.ok ((all2, avgConf all2), some uncertain)
  else Except.ok ((all, cc), none)

/-- Which external tiers a `process` call actually invoked. -/
structure ProcTrace where
  presidio_called : Bool
  llm_called_with : Option (List Entity)
deriving DecidableEq

/-- `process(text, use_adaptive)`: static tier always; early return in
static-only mode or at high static confidence; otherwise merge the Presidio
results, early return at medium confidence, otherwise run the LLM stage and
record statistics.  The returned trace reports the tier-2/tier-3
invocations; the statistics state is threaded explicitly. -/
def process (cfg : AnonCfg) (analyzer : PresidioFn) (time_ms : ℚ) (st : AnonState)
    (text : Str) (use_adaptive : Bool) :
    Except PyErr ((List Entity × ℚ) × AnonState × ProcTrace) := do
  if !use_adaptive || !cfg.enable_presidio then
    let r ← analyze_with_static_rules text
    Except.ok (r, st, ⟨false, none⟩)
  else do
    let sr ← analyze_with_static_rules text
    if cfg.confidence_threshold ≤ sr.2 then Except.ok (sr, st, ⟨false, none⟩)
    else
      let pr := analyze_with_presidio analyzer text
      let all := remove_overlaps (sr.1 ++ pr.1)
      let cc := avgConf all
      if cfg.llm_threshold ≤ cc then Except.ok ((all, cc), st, ⟨true, none⟩)
      else do
        let step ← llmStage cfg text all cc
        let st2 := record_processing cfg text step.1.1 step.1.2 time_ms st
        Except.ok (step.1, st2, ⟨true, step.2⟩)

/-!
The replacement layer: `_get_replacement`, `anonymize_text` and the batch
entry point `anonymize_transactions`.  The MD5 hex digest used by the
`hash` method is an injected function `md5hex`.
-/

/-- The last `n` elements (`s[-n:]` for `n ≤ len`). -/
def lastN (s : Str) (n : Nat) : Str := s.drop (s.length - n)

/-- `_get_replacement(entity, method)`. -/
def get_replacement (md5hex : Str → Str) (e : Entity) (method : Str) : Str :=
  if method = ("mask").data then
    if e.entity_type = ("CREDIT_CARD").data then
      let digits := e.text.filter (fun c => !(isSpaceC c || decide (c = '-')))
      if 4 ≤ digits.length then ("****-****-****-").data ++ lastN digits 4
      else ("****-****-****-****").data
    else if e.entity_type = ("ES_DNI").data then ("********X").data
    else if e.entity_type = ("ES_PHONE").data then
      if (("+34").data).isPrefixOf e.text then ("+34 *** ** ** **").data
      else ("*** ** ** **").data
    else if e.entity_type = ("ES_IBAN").data then
      let clean := e.text.filter (fun c => !isSpaceC c)
      if 6 ≤ clean.length then clean.take 4 ++ ("...").data ++ lastN clean 4
      else ("ES**...****").data
    else '<' :: e.entity_type ++ ['>']
  else if method = ("replace").data then '<' :: e.entity_type ++ ['>']
  else if method = ("hash").data then
    '<' :: e.entity_type ++ '_' :: (md5hex e.text).take 8 ++ ['>']
  else ("<REDACTED>").data

/-- Stable insertion for the descending sort
`entities.sort(key=lambda x: x['start'], reverse=True)`. -/
def insertByStartDesc (e : Entity) : List Entity → List Entity
  | [] => [e]
  | x :: xs => if e.start ≤ x.start then x :: insertByStartDesc e xs else e :: x :: xs

/-- Stable sort by descending `start`. -/
def sortByStartDesc (l : List Entity) : List Entity :=
  l.foldl (fun acc e => insertByStartDesc e acc) []

/-- `anonymize_text(text, method)`: detect entities via `process`, return
the text unchanged if none were found, otherwise substitute replacements
back-to-front. -/
def anonymize_text (cfg : AnonCfg) (analyzer : PresidioFn) (md5hex : Str → Str)
    (time_ms : ℚ) (st : AnonState) (text : Str) (method : Str) :
    Except PyErr (Str × AnonState) := do
  let r ← process cfg analyzer time_ms st text true
  let entities := r.1.1
  if entities.isEmpty then Except.ok (text, r.2.1)
  else
    let sorted := sortByStartDesc entities
    let anonymized := sorted.foldl (fun acc e =>
      acc.take e.start ++ get_replacement md5hex e method ++ acc.drop e.stop) text
    Except.ok (anonymized, r.2.1)

/-- A Python value stored in a transaction record: a string or a
non-string (modelled by a rational, e.g. an amount). -/
inductive PyVal where
  | str : Str → PyVal
  | num : ℚ → PyVal
deriving DecidableEq

/-- A transaction record: a dict as an association list with unique keys
(lookup takes the first binding). -/
abbrev TxRecord := List (Str × PyVal)

/-- Dict lookup `r.get(k)` / `k in r`: the first binding of the key. -/
def dictGet : TxRecord → Str → Option PyVal
  | [], _ => none
  | p :: rest, k => if p.1 = k then some p.2 else dictGet rest k

/-- Dict update `r[k] = v`: replace the first binding of `k`, or append a
new binding if the key is absent. -/
def dictSet (r : TxRecord) (k : Str) (v : PyVal) : TxRecord :=
  match r with
  | [] => [(k, v)]
  | p :: rest => if p.1 = k then (k, v) :: rest else p :: dictSet rest k v

/-- `anonymize_text` applied to a record field: `re.finditer` raises
`TypeError` when its subject is not a string, before anything else in the
pipeline runs. -/
def anonymize_text_val (cfg : AnonCfg) (analyzer : PresidioFn) (md5hex : Str → Str)
    (time_ms : ℚ) (st : AnonState) : PyVal → Except PyErr (Str × AnonState)
  | PyVal.str s => anonymize_text cfg analyzer md5hex time_ms st s (("mask").data)
  | PyVal.num _ => Except.error PyErr.typeError

/-- Anonymize one optional textual field of a record. -/
def anonymize_field (cfg : AnonCfg) (analyzer : PresidioFn) (md5hex : Str → Str)
    (time_ms : ℚ) (st : AnonState) (r : TxRecord) (k : Str) :
    Except PyErr (TxRecord × AnonState) :=
  match dictGet r k with
  | none => Except.ok (r, st)
  | some v => do
      let a ← anonymize_text_val cfg analyzer md5hex time_ms st v
      Except.ok (dictSet r k (PyVal.str a.1), a.2)

/-- The per-record body of `anonymize_transactions`: copy the record and
anonymize, in this order, the `concept`, `description` and `notes` fields
when present. -/
def anonymize_one_tx (cfg : AnonCfg) (analyzer : PresidioFn) (md5hex : Str → Str)
    (time_ms : ℚ) (st : AnonState) (tx : TxRecord) : Except PyErr (TxRecord × AnonState) := do
  let a1 ← anonymize_field cfg analyzer md5hex time_ms st tx (("concept").data)
  let a2 ← anonymize_field cfg analyzer md5hex time_ms a1.2 a1.1 (("description").data)
  let a3 ← anonymize_field cfg analyzer md5hex time_ms a2.2 a2.1 (("notes").data)
  Except.ok a3

/-- `anonymize_transactions`: anonymize the textual fields of each record
in order, threading the statistics state; an exception raised for any
record aborts the whole batch. -/
def anonymize_transactions (cfg : AnonCfg) (analyzer : PresidioFn) (md5hex : Str → Str)
    (time_ms : ℚ) (st : AnonState) : List TxRecord → Except PyErr (List TxRecord × AnonState)
  | [] => Except.ok ([], st)
  | tx :: rest => do
    let a ← anonymize_one_tx cfg analyzer md5hex time_ms st tx
    let b ← anonymize_transactions cfg analyzer md5hex time_ms a.2 rest
    Except.ok (a.1 :: b.1, b.2)

/-!
Proof development.  First some generic helpers: decidable equality of
`Except`, inversion of the `Except` bind, and facts about the character
classes and the `int` parser.
-/

deriving instance DecidableEq for Except

/-- Inversion of a successful `Except` bind. -/
theorem exbind_ok {α β : Type} {x : Except PyErr α} {f : α → Except PyErr β} {b : β}
    (h : (x >>= f) = Except.ok b) : ∃ a, x = Except.ok a ∧ f a = Except.ok b := by
  cases x with
  | error e => simp [Bind.bind, Except.bind] at h
  | ok a => exact ⟨a, rfl, by simpa [Bind.bind, Except.bind] using h⟩

/-- A character with a digit value is an ASCII or Arabic-Indic digit. -/
theorem pyDigitVal?_isSome_toNat {c : Char} (h : (pyDigitVal? c).isSome) :
    (48 ≤ c.toNat ∧ c.toNat ≤ 57) ∨ (0x660 ≤ c.toNat ∧ c.toNat ≤ 0x669) := by
  unfold pyDigitVal? at h
  by_cases h1 : isDigitA c = true
  · left
    have h2 := h1
    unfold isDigitA at h2
    simp only [Bool.and_eq_true, decide_eq_true_eq] at h2
    rw [Char.le_def] at h2
    exact ⟨h2.1, h2.2⟩
  · right
    rw [if_neg h1] at h
    by_cases h2 : (0x660 ≤ c.toNat && c.toNat ≤ 0x669) = true
    · simpa using h2
    · rw [if_neg h2] at h
      simp at h

/-- An ASCII digit has a digit value. -/
theorem isDigitA_pyDigitVal {c : Char} (h : isDigitA c = true) : (pyDigitVal? c).isSome := by
  unfold pyDigitVal?
  rw [if_pos h]
  rfl

/-- A character with a digit value is not regex whitespace. -/
theorem pyDigitVal?_not_space {c : Char} (h : (pyDigitVal? c).isSome) : isSpaceC c = false := by
  rcases pyDigitVal?_isSome_toNat h with h1 | h1 <;>
  · unfold isSpaceC
    simp only [Bool.or_eq_false_iff, decide_eq_false_iff_not]
    refine ⟨⟨⟨⟨⟨?_, ?_⟩, ?_⟩, ?_⟩, ?_⟩, ?_⟩ <;> (intro he; subst he; revert h1; decide)

/-- A character with a digit value is none of `+`, `-`, `_`. -/
theorem pyDigitVal?_not_sign {c : Char} (h : (pyDigitVal? c).isSome) :
    c ≠ '+' ∧ c ≠ '-' ∧ c ≠ '_' := by
  rcases pyDigitVal?_isSome_toNat h with h1 | h1 <;>
    exact ⟨by intro he; subst he; revert h1; decide, by intro he; subst he; revert h1; decide,
      by intro he; subst he; revert h1; decide⟩

/-- An all-digit string is untouched by whitespace stripping. -/
theorem pyStrip_of_digits {l : Str} (h : ∀ c ∈ l, (pyDigitVal? c).isSome) :
    pyStrip l = l := by
  have hd : ∀ (m : Str), (∀ c ∈ m, (pyDigitVal? c).isSome) → m.dropWhile isSpaceC = m := by
    intro m hm
    cases m with
    | nil => rfl
    | cons c t =>
      rw [List.dropWhile_cons_of_neg]
      simp [pyDigitVal?_not_space (hm c (List.mem_cons_self c t))]
  unfold pyStrip
  rw [hd l h, hd l.reverse (fun c hc => h c (List.mem_reverse.mp hc)), List.reverse_reverse]

/-- `pyDigitsRun` succeeds on a string of digit characters. -/
theorem pyDigitsRun_isSome {l : Str} (h : ∀ c ∈ l, (pyDigitVal? c).isSome) (acc : Nat) :
    ∃ n, pyDigitsRun l acc = some n := by
  induction l generalizing acc with
  | nil => exact ⟨acc, rfl⟩
  | cons c rest ih =>
    have hc := h c (List.mem_cons_self c rest)
    obtain ⟨d, hd⟩ := Option.isSome_iff_exists.mp hc
    have hcu : ¬ c = '_' := (pyDigitVal?_not_sign hc).2.2
    unfold pyDigitsRun
    rw [if_neg hcu, hd]
    exact ih (fun x hx => h x (List.mem_cons_of_mem c hx)) _

/-- `pyUnsignedParse` succeeds on a nonempty string of digit characters. -/
theorem pyUnsignedParse_isSome {l : Str} (hne : l ≠ []) (h : ∀ c ∈ l, (pyDigitVal? c).isSome) :
    ∃ n, pyUnsignedParse l = some n := by
  cases l with
  | nil => exact absurd rfl hne
  | cons c rest =>
    have hc := h c (List.mem_cons_self c rest)
    obtain ⟨d, hd⟩ := Option.isSome_iff_exists.mp hc
    simp only [pyUnsignedParse, hd]
    exact pyDigitsRun_isSome (fun x hx => h x (List.mem_cons_of_mem c hx)) d

/-- `int` succeeds on a nonempty string of digit characters. -/
theorem pyIntParse_isSome {l : Str} (hne : l ≠ []) (h : ∀ c ∈ l, (pyDigitVal? c).isSome) :
    ∃ n, pyIntParse l = some n := by
  cases l with
  | nil => exact absurd rfl hne
  | cons c rest =>
    have hc := h c (List.mem_cons_self c rest)
    have h1 : ¬ ((c :: rest).head? = some '+') := by
      simp [(pyDigitVal?_not_sign hc).1]
    have h2 : ¬ ((c :: rest).head? = some '-') := by
      simp [(pyDigitVal?_not_sign hc).2.1]
    simp only [pyIntParse, pyStrip_of_digits h]
    rw [if_neg h1, if_neg h2]
    obtain ⟨n, hn⟩ := pyUnsignedParse_isSome (by simp) h
    exact ⟨n, by rw [hn]; rfl⟩

/-- `digitCharPy` produces ASCII digits. -/
theorem digitCharPy_isDigit (n : Nat) : isDigitA (digitCharPy n) = true := by
  unfold digitCharPy
  repeat' split
  all_goals decide

/-- Every character `natToDigitsAux` produces is an ASCII digit. -/
theorem natToDigitsAux_digits : ∀ fuel n c, c ∈ natToDigitsAux fuel n → isDigitA c = true := by
  intro fuel
  induction fuel with
  | zero => intro n c hc; simp [natToDigitsAux] at hc
  | succ f ih =>
    intro n c hc
    unfold natToDigitsAux at hc
    by_cases hn : n < 10
    · rw [if_pos hn] at hc
      simp only [List.mem_singleton] at hc
      subst hc
      exact digitCharPy_isDigit n
    · rw [if_neg hn] at hc
      rcases List.mem_append.mp hc with h1 | h1
      · exact ih _ _ h1
      · simp only [List.mem_singleton] at h1
        subst h1
        exact digitCharPy_isDigit _

/-- `str(n)` is never empty. -/
theorem natToDigitsPy_ne_nil (n : Nat) : natToDigitsPy n ≠ [] := by
  unfold natToDigitsPy natToDigitsAux
  by_cases hn : n < 10
  · rw [if_pos hn]; simp
  · rw [if_neg hn]; simp

/-- An ASCII uppercase letter has code 65–90. -/
theorem isUpperA_toNat {c : Char} (h : isUpperA c = true) : 65 ≤ c.toNat ∧ c.toNat ≤ 90 := by
  simp only [isUpperA, Bool.and_eq_true, decide_eq_true_eq] at h
  rw [Char.le_def] at h
  obtain ⟨h1, h2⟩ := h
  exact ⟨h1, h2⟩

/-- An ASCII uppercase letter does not satisfy `str.isdigit`. -/
theorem isUpperA_not_pyIsDigit {c : Char} (h : isUpperA c = true) : pyIsDigit c = false := by
  have hn := isUpperA_toNat h
  unfold pyIsDigit
  simp only [Bool.or_eq_false_iff, decide_eq_false_iff_not]
  refine ⟨⟨⟨?_, ?_⟩, ?_⟩, ?_⟩
  · cases hv : (pyDigitVal? c).isSome
    · rfl
    · have := pyDigitVal?_isSome_toNat hv
      omega
  · intro he; subst he; revert hn; decide
  · intro he; subst he; revert hn; decide
  · intro he; subst he; revert hn; decide

/-- For an ASCII character, `str.isdigit` implies `int`-digit-hood (the
superscript digits are outside ASCII). -/
theorem ascii_pyIsDigit_val {c : Char} (ha : c.toNat < 128) (h : pyIsDigit c = true) :
    (pyDigitVal? c).isSome := by
  unfold pyIsDigit at h
  rcases Bool.or_eq_true_iff.mp h with h1 | h1
  rotate_left
  · exfalso; revert ha; simp only [decide_eq_true_eq] at h1; subst h1; decide
  rcases Bool.or_eq_true_iff.mp h1 with h2 | h2
  rotate_left
  · exfalso; revert ha; simp only [decide_eq_true_eq] at h2; subst h2; decide
  rcases Bool.or_eq_true_iff.mp h2 with h3 | h3
  · exact h3
  · exfalso; revert ha; simp only [decide_eq_true_eq] at h3; subst h3; decide

/-- Every character of a string passing the IBAN shape regex is an ASCII
uppercase letter or a decimal digit. -/
theorem ibanShape_chars {l : Str} (h : ibanShape l = true) :
    ∀ x ∈ l, isUpperA x = true ∨ (pyDigitVal? x).isSome := by
  match l with
  | [] => simp [ibanShape] at h
  | [a] => simp [ibanShape] at h
  | [a, b] => simp [ibanShape] at h
  | [a, b, c] => simp [ibanShape] at h
  | a :: b :: c :: d :: rest =>
    simp only [ibanShape, Bool.and_eq_true] at h
    obtain ⟨⟨⟨⟨⟨ha, hb⟩, hc⟩, hd⟩, _⟩, hrest⟩ := h
    intro x hx
    rcases hx with _ | ⟨_, hx⟩
    · exact Or.inl ha
    rcases hx with _ | ⟨_, hx⟩
    · exact Or.inl hb
    rcases hx with _ | ⟨_, hx⟩
    · exact Or.inr hc
    rcases hx with _ | ⟨_, hx⟩
    · exact Or.inr hd
    · have := (List.all_eq_true.mp hrest) x hx
      rcases Bool.or_eq_true_iff.mp this with h1 | h1
      · exact Or.inl h1
      · exact Or.inr (isDigitA_pyDigitVal h1)

/-- `mapInts` succeeds when every character is an `int`-digit. -/
theorem mapInts_ok {l : Str} (h : ∀ c ∈ l, (pyDigitVal? c).isSome) :
    ∃ ds : List Nat, mapInts l = Except.ok ds := by
  induction l with
  | nil => exact ⟨[], rfl⟩
  | cons c t ih =>
    obtain ⟨d, hd⟩ := Option.isSome_iff_exists.mp (h c (List.mem_cons_self c t))
    obtain ⟨ds, hds⟩ := ih (fun x hx => h x (List.mem_cons_of_mem c hx))
    refine ⟨d :: ds, ?_⟩
    simp only [mapInts, hd]
    rw [show (Except.ok d >>= fun d => mapInts t >>= fun ds =>
      Except.ok (d :: ds) : Except PyErr (List Nat)) =
      (mapInts t >>= fun ds => Except.ok (d :: ds)) from rfl, hds]
    rfl

/-- C10 (counterexample): the claim says all three validators never raise,
explicitly including non-ASCII input, but `_validate_credit_card` raises
`ValueError` on a 12-character string of `'²'`: every `'²'` passes
`str.isdigit`, so the length/digit guard is passed, and then `int('²')`
raises. -/
theorem c10_counterexample :
    validate_credit_card (List.replicate 12 '²') = Except.error PyErr.valueError := by
  with_unfolding_all decide

/-- C10 (amended): the DNI validator is total by its catch-all `except`
(and returns `false` on any string whose length is not 9); the IBAN
validator never raises on any string; the credit-card validator never
raises on ASCII strings — but, per the counterexample, it can raise on
digit-like non-decimal characters. -/
theorem c10_amended (s : Str) :
    (∃ b, validate_iban s = Except.ok b) ∧
    ((∀ c ∈ s, c.toNat < 128) → ∃ b, validate_credit_card s = Except.ok b) ∧
    (s.length ≠ 9 → validate_spanish_dni s = false) := by
  refine ⟨?_, ?_, ?_⟩
  · unfold validate_iban
    by_cases hs : ibanShape (s.filter (fun c => !isSpaceC c)) = true
    · rw [if_neg (by simp [hs])]
      set t := s.filter (fun c => !isSpaceC c) with ht
      set rearranged := t.drop 4 ++ t.take 4 with hr
      have hmem : ∀ x ∈ rearranged, isUpperA x = true ∨ (pyDigitVal? x).isSome := by
        intro x hx
        apply ibanShape_chars hs
        rcases List.mem_append.mp hx with h1 | h1
        · exact (List.drop_sublist 4 t).mem h1
        · exact (List.take_sublist 4 t).mem h1
      have hpieces : ∀ x ∈ rearranged,
          (if pyIsDigit x then [x] else natToDigitsPy (x.toNat - 65 + 10)) ≠ [] ∧
          ∀ c ∈ (if pyIsDigit x then [x] else natToDigitsPy (x.toNat - 65 + 10)),
            (pyDigitVal? c).isSome := by
        intro x hx
        by_cases hdig : pyIsDigit x = true
        · rcases hmem x hx with hu | hv
          · rw [isUpperA_not_pyIsDigit hu] at hdig
            exact absurd hdig (by simp)
          · refine ⟨by simp [hdig], ?_⟩
            intro c hc
            rw [if_pos hdig] at hc
            simp only [List.mem_singleton] at hc
            subst hc
            exact hv
        · refine ⟨by simp [hdig, natToDigitsPy_ne_nil], ?_⟩
          intro c hc
          rw [if_neg hdig] at hc
          exact isDigitA_pyDigitVal (natToDigitsAux_digits _ _ _ hc)
      have hne : ((rearranged.map (fun c =>
          if pyIsDigit c then [c] else natToDigitsPy (c.toNat - 65 + 10))).flatten) ≠ [] := by
        have h5 : t.take 4 ≠ [] := by
          rcases t with _ | ⟨a, _ | ⟨b, t2⟩⟩
          · simp [ibanShape] at hs
          · simp [ibanShape] at hs
          · simp
        rcases hq : rearranged with _ | ⟨x, xs⟩
        · rw [hr] at hq
          exact absurd (List.append_eq_nil.mp hq).2 h5
        · simp only [List.map_cons, List.flatten_cons]
          have := (hpieces x (by rw [hq]; exact List.mem_cons_self x xs)).1
          intro hcontra
          exact this (List.append_eq_nil.mp hcontra).1
      have hdigs : ∀ c ∈ ((rearranged.map (fun c =>
          if pyIsDigit c then [c] else natToDigitsPy (c.toNat - 65 + 10))).flatten),
          (pyDigitVal? c).isSome := by
        intro c hc
        obtain ⟨piece, hpc, hcp⟩ := List.mem_flatten.mp hc
        obtain ⟨x, hxr, hxp⟩ := List.mem_map.mp hpc
        subst hxp
        exact (hpieces x hxr).2 c hcp
      obtain ⟨n, hn⟩ := pyIntParse_isSome hne hdigs
      simp only [hn]
      exact ⟨_, rfl⟩
    · rw [if_pos (by simp [hs])]
      exact ⟨false, rfl⟩
  · intro hascii
    unfold validate_credit_card
    by_cases hc : (!pyIsDigitStr (s.filter (fun c => !(isSpaceC c || decide (c = '-')))) ||
        (s.filter (fun c => !(isSpaceC c || decide (c = '-')))).length < 12 ||
        19 < (s.filter (fun c => !(isSpaceC c || decide (c = '-')))).length) = true
    · rw [if_pos hc]
      exact ⟨false, rfl⟩
    · rw [if_neg hc]
      have hdigits : pyIsDigitStr (s.filter (fun c => !(isSpaceC c || decide (c = '-')))) = true := by
        by_contra hbad
        apply hc
        have hb2 : pyIsDigitStr (s.filter (fun c => !(isSpaceC c || decide (c = '-')))) = false := by
          rcases hb : pyIsDigitStr (s.filter (fun c => !(isSpaceC c || decide (c = '-'))))
          · rfl
          · exact absurd hb hbad
        rw [hb2]
        rfl
      have hall : ∀ c ∈ s.filter (fun c => !(isSpaceC c || decide (c = '-'))),
          (pyDigitVal? c).isSome := by
        intro c hcm
        have h1 : pyIsDigit c = true := by
          have h2 := hdigits
          unfold pyIsDigitStr at h2
          rw [Bool.and_eq_true] at h2
          exact (List.all_eq_true.mp h2.2) c hcm
        exact ascii_pyIsDigit_val (hascii c (List.mem_of_mem_filter hcm)) h1
      obtain ⟨ds, hds⟩ := mapInts_ok hall
      refine ⟨decide (((ds.enum.map (fun p =>
        if (ds.length - p.1) % 2 = 0 then (if 9 < 2 * p.2 then 2 * p.2 - 9 else 2 * p.2)
        else p.2)).sum % 10 = 0)), ?_⟩
      rw [hds]
      rfl
  · intro h9
    unfold validate_spanish_dni
    rw [if_pos h9]

/-- C8: the DNI validator returns `true` exactly on 9-character strings
whose first 8 characters `int`-parse to some `n` and whose 9th character,
uppercased, is the control letter at index `n mod 23`; in particular it
accepts `"00000000T"`. -/
theorem c8_dni_validator :
    (∀ s : Str, validate_spanish_dni s = true ↔
      (s.length = 9 ∧ ∃ n : Int, pyIntParse (s.take 8) = some n ∧
        dniLetters.getD (n.emod 23).toNat ' ' = toUpperA (s.getD 8 ' '))) ∧
    validate_spanish_dni (("00000000T").data) = true := by
  constructor
  · intro s
    unfold validate_spanish_dni
    by_cases hl : s.length = 9
    · rw [if_neg (by simp [hl])]
      cases hp : pyIntParse (s.take 8) with
      | none => simp [hl]
      | some n => simp [hl, beq_iff_eq]
    · rw [if_pos hl]
      simp [hl]
  · with_unfolding_all decide

/-- Witness for C10 (amended): the IBAN validator returns `ok` on a real
IBAN, the credit-card validator returns `ok` on an ASCII card number, and
the DNI validator returns `false` on an 8-character string. -/
theorem c10_amended_witness :
    (∃ b, validate_iban (("ES9121000418450200051332").data) = Except.ok b) ∧
    (∃ b, validate_credit_card (("4532015112830366").data) = Except.ok b) ∧
    validate_spanish_dni (("1234567Z").data) = false :=
  ⟨(c10_amended (("ES9121000418450200051332").data)).1,
   (c10_amended (("4532015112830366").data)).2.1 (by with_unfolding_all decide),
   (c10_amended (("1234567Z").data)).2.2 (by with_unfolding_all decide)⟩

/-- Witness for C8: instantiating the equivalence at `"00000000T"`. -/
theorem c8_dni_validator_witness :
    ((("00000000T").data).length = 9 ∧ ∃ n : Int,
      pyIntParse ((("00000000T").data).take 8) = some n ∧
      dniLetters.getD (n.emod 23).toNat ' ' = toUpperA ((("00000000T").data).getD 8 ' ')) :=
  (c8_dni_validator.1 (("00000000T").data)).mp c8_dni_validator.2

/-- Python's binary `max`, as an explicit `if`. -/
def pyMax (a b : ℚ) : ℚ := if a ≤ b then b else a

/-- The context bonus as claim C2 words it: the first *qualifying* context
keyword — one that occurs in the text with distance < 50 — determines the
bonus.  (Modelled from the claim, for comparison with the code, which
instead stops at the first keyword that merely occurs.) -/
def contextBonusClaim (tl ml : Str) (ws : List Str) : ℚ :=
  match ws.find? (fun w =>
      pyContains tl w && decide ((pyFind tl w - pyFind tl ml).natAbs < 50)) with
  | none => 0
  | some w =>
    if (pyFind tl w - pyFind tl ml).natAbs < 20 then (2 : ℚ)/10 else (1 : ℚ)/10

/-- Claim C2's scoring formula: base confidence, plus the bonus of the
first qualifying keyword, plus the validator bonus, clamped to [0, 1].
(Modelled from the claim.) -/
def c2_claim_confidence (text ty mtext : Str) : Except PyErr ℚ := do
  let base := catalogConfidence ty
  let cb := contextBonusClaim (pyLower text) (pyLower mtext) (catalogContext ty)
  let vb : ℚ ←
    match catalogValidator ty with
    | none => Except.ok 0
    | some v => do
        let ok ← v mtext
        Except.ok (if ok then (15 : ℚ)/100 else -((3 : ℚ)/10))
  Except.ok (pyMax 0 (pyMin 1 (base + cb + vb)))

/-- The context bonus the code computes, stated declaratively: the first
keyword (in catalog order) that occurs in the lowered text determines the
bonus by its distance — 0 if it is 50 or more characters away — and later
keywords are never considered. -/
def contextBonusFirstPresent (tl ml : Str) (ws : List Str) : ℚ :=
  match ws.find? (fun w => pyContains tl w) with
  | none => 0
  | some w =>
    let distance := (pyFind tl w - pyFind tl ml).natAbs
    if distance < 20 then (2 : ℚ)/10 else if distance < 50 then (1 : ℚ)/10 else 0

/-- C2 as amended: the code's score is base + the first-present-keyword
bonus + the validator bonus, capped above at 1.0 (no separate lower clamp
exists in the code; the result is nonnegative anyway for every catalog
type). -/
def c2_amended_confidence (text ty mtext : Str) : Except PyErr ℚ := do
  let base := catalogConfidence ty
  let cb := contextBonusFirstPresent (pyLower text) (pyLower mtext) (catalogContext ty)
  let vb : ℚ ←
    match catalogValidator ty with
    | none => Except.ok 0
    | some v => do
        let ok ← v mtext
        Except.ok (if ok then (15 : ℚ)/100 else -((3 : ℚ)/10))
  Except.ok (pyMin 1 (base + cb + vb))

/-- The imperative keyword loop equals its declarative `find?` form. -/
theorem contextBonusLoop_eq_firstPresent (tl ml : Str) (ws : List Str) :
    contextBonusLoop tl ml ws = contextBonusFirstPresent tl ml ws := by
  induction ws with
  | nil => rfl
  | cons w rest ih =>
    by_cases hw : pyContains tl w = true
    · rw [contextBonusLoop, if_pos hw, contextBonusFirstPresent,
        List.find?_cons_of_pos _ hw]
    · rw [contextBonusLoop, if_neg hw, contextBonusFirstPresent,
        List.find?_cons_of_neg _ (by simp [hw]), ih, contextBonusFirstPresent]

/-- The text of the C2 counterexample: the first catalog keyword `dni`
occurs 69 characters away from the match (no bonus), while the later
keyword `nif` occurs 4 characters away (which the claim's rule would
reward with +0.2). -/
def c2Text : Str := ("dni ").data ++ List.replicate 60 '.' ++ (" nif 12345678Z").data

/-- C2 (counterexample): on `c2Text` the code stops at `dni`, far away, and
returns the bare base confidence 0.9, while the claim's
first-qualifying-keyword formula returns 1.0 (0.9 + 0.2 capped). -/
theorem c2_counterexample :
    calculate_confidence c2Text (("ES_DNI").data) (("12345678Z").data) =
      Except.ok ((9 : ℚ)/10) ∧
    c2_claim_confidence c2Text (("ES_DNI").data) (("12345678Z").data) =
      Except.ok 1 ∧
    ((9 : ℚ)/10) ≠ 1 :=
  ⟨by with_unfolding_all decide, by with_unfolding_all decide, by with_unfolding_all decide⟩

/-- C2 (amended): for every text, entity type and matched substring,
`_calculate_confidence` returns the amended formula — base confidence plus
the bonus of the first catalog keyword *present* in the text (even when it
is too far for any bonus; later keywords are never consulted), plus the
validator bonus (+0.15 / −0.3, or 0 without a validator), capped above at
1.0. -/
theorem c2_amended_eq (text ty mtext : Str) :
    calculate_confidence text ty mtext = c2_amended_confidence text ty mtext := by
  unfold calculate_confidence c2_amended_confidence
  rw [contextBonusLoop_eq_firstPresent]

/-!
C1: the no-overlap invariant of `_remove_overlaps`.  The key facts: the
accepted list only ever contains entities whose `start` is at most the
start of the entity being processed (the input is sorted by `start`), and
among pairwise non-overlapping entities with starts `≤ s` at most one can
reach past `s` — so the single replace-and-stop step of the Python loop
cannot leave a second overlapping entity behind.
-/

/-- The overlap proposition is symmetric. -/
theorem Olap_symm {a b : Entity} (h : Olap a b) : Olap b a := ⟨h.2, h.1⟩

/-- The Boolean overlap test decides `Olap`. -/
theorem overlapsB_iff {e ex : Entity} : overlapsB e ex = true ↔ Olap e ex := by
  simp [overlapsB, Olap]

/-- Abbreviation: a list of pairwise non-overlapping entities. -/
def NoOlapList (l : List Entity) : Prop := l.Pairwise (fun a b => ¬ Olap a b)

/-- The invariant of the inner loop of `_remove_overlaps`: starting from a
pairwise non-overlapping list whose members start no later than `e` and
whose scanned prefix does not overlap `e`, the loop preserves pairwise
non-overlap, and all members of the result still start no later than
`e`. -/
theorem rmLoop_invariant (e : Entity) (suf : List Entity) : ∀ pre : List Entity,
    NoOlapList (pre ++ suf) →
    (∀ m ∈ pre ++ suf, m.start ≤ e.start) →
    (∀ m ∈ pre, ¬ Olap e m) →
    NoOlapList (rmLoop e pre suf) ∧ ∀ m ∈ rmLoop e pre suf, m.start ≤ e.start := by
  induction suf with
  | nil =>
    intro pre hpw hle hpre
    rw [List.append_nil] at hpw hle
    rw [rmLoop]
    constructor
    · unfold NoOlapList at hpw ⊢
      rw [List.pairwise_append]
      refine ⟨hpw, List.pairwise_singleton _ _, ?_⟩
      intro a ha b hb
      rw [List.mem_singleton] at hb
      subst hb
      exact fun hol => hpre a ha (Olap_symm hol)
    · intro m hm
      rcases List.mem_append.mp hm with h1 | h1
      · exact hle m h1
      · rw [List.mem_singleton] at h1
        subst h1
        exact Nat.le_refl _
  | cons ex rest ih =>
    intro pre hpw hle hpre
    rw [rmLoop]
    by_cases hov : overlapsB e ex = true
    · rw [if_pos hov]
      have hoe : Olap e ex := overlapsB_iff.mp hov
      by_cases hconf : ex.confidence < e.confidence
      · rw [if_pos hconf]
        -- `e` replaces `ex`; nothing else can overlap `e`.
        have hpw' : NoOlapList (pre ++ rest) := by
          refine List.Pairwise.sublist ?_ hpw
          exact List.Sublist.append_left (List.sublist_cons_self ex rest) pre
        have hrest_no : ∀ m ∈ rest, ¬ Olap e m := by
          intro m hm hom
          -- a second overlap would force `ex` and `m` to overlap
          have hex_start : ex.start ≤ e.start :=
            hle ex (List.mem_append.mpr (Or.inr (List.mem_cons_self ex rest)))
          have hm_start : m.start ≤ e.start :=
            hle m (List.mem_append.mpr (Or.inr (List.mem_cons_of_mem ex hm)))
          have hexm : Olap ex m :=
            ⟨Nat.lt_of_le_of_lt hex_start hom.1, Nat.lt_of_le_of_lt hm_start hoe.1⟩
          have : ¬ Olap ex m := by
            have h2 := (List.pairwise_append.mp hpw).2.1
            exact (List.pairwise_cons.mp h2).1 m hm
          exact this hexm
        constructor
        · unfold NoOlapList at hpw' ⊢
          rw [List.pairwise_append]
          refine ⟨hpw', List.pairwise_singleton _ _, ?_⟩
          intro a ha b hb
          rw [List.mem_singleton] at hb
          subst hb
          intro hol
          rcases List.mem_append.mp ha with h1 | h1
          · exact hpre a h1 (Olap_symm hol)
          · exact hrest_no a h1 (Olap_symm hol)
        · intro m hm
          rcases List.mem_append.mp hm with h1 | h1
          · rcases List.mem_append.mp h1 with h2 | h2
            · exact hle m (List.mem_append.mpr (Or.inl h2))
            · exact hle m (List.mem_append.mpr (Or.inr (List.mem_cons_of_mem ex h2)))
          · rw [List.mem_singleton] at h1
            subst h1
            exact Nat.le_refl _
      · rw [if_neg hconf]
        exact ⟨hpw, hle⟩
    · rw [if_neg hov]
      have hnoe : ¬ Olap e ex := fun h => hov (overlapsB_iff.mpr h)
      refine ih (pre ++ [ex]) ?_ ?_ ?_
      · rw [List.append_assoc, List.singleton_append]
        exact hpw
      · intro m hm
        rw [List.append_assoc, List.singleton_append] at hm
        exact hle m hm
      · intro m hm
        rcases List.mem_append.mp hm with h1 | h1
        · exact hpre m h1
        · rw [List.mem_singleton] at h1
          subst h1
          exact hnoe

/-- Folding the loop over a start-sorted list keeps the accepted list
pairwise non-overlapping. -/
theorem foldl_rmLoop_no_overlap : ∀ (l res : List Entity),
    NoOlapList res →
    (∀ m ∈ res, ∀ f ∈ l, m.start ≤ f.start) →
    l.Pairwise (fun a b => a.start ≤ b.start) →
    NoOlapList (l.foldl (fun r e => rmLoop e [] r) res) := by
  intro l
  induction l with
  | nil => intro res hpw _ _; exact hpw
  | cons e tail ih =>
    intro res hpw hle hsort
    rw [List.foldl_cons]
    have hstep := rmLoop_invariant e res [] (by simpa using hpw)
      (by intro m hm; exact hle m (by simpa using hm) e (List.mem_cons_self e tail))
      (by intro m hm; simp at hm)
    refine ih _ hstep.1 ?_ (List.pairwise_cons.mp hsort).2
    intro m hm f hf
    have h1 := hstep.2 m hm
    have h2 := (List.pairwise_cons.mp hsort).1 f hf
    omega

/-- Members of `insertByStart e l` are `e` or members of `l`. -/
theorem mem_insertByStart {m e : Entity} : ∀ {l : List Entity},
    m ∈ insertByStart e l → m = e ∨ m ∈ l := by
  intro l
  induction l with
  | nil =>
    intro h
    rw [insertByStart, List.mem_singleton] at h
    exact Or.inl h
  | cons x xs ih =>
    intro h
    rw [insertByStart] at h
    by_cases hx : x.start ≤ e.start
    · rw [if_pos hx] at h
      rcases List.mem_cons.mp h with h1 | h1
      · exact Or.inr (h1 ▸ List.mem_cons_self x xs)
      · rcases ih h1 with h2 | h2
        · exact Or.inl h2
        · exact Or.inr (List.mem_cons_of_mem x h2)
    · rw [if_neg hx] at h
      rcases List.mem_cons.mp h with h1 | h1
      · exact Or.inl h1
      · exact Or.inr h1

/-- Insertion preserves sortedness by `start`. -/
theorem insertByStart_sorted {e : Entity} : ∀ {l : List Entity},
    l.Pairwise (fun a b => a.start ≤ b.start) →
    (insertByStart e l).Pairwise (fun a b => a.start ≤ b.start) := by
  intro l
  induction l with
  | nil => intro _; exact List.pairwise_singleton _ _
  | cons x xs ih =>
    intro h
    obtain ⟨hx, hxs⟩ := List.pairwise_cons.mp h
    rw [insertByStart]
    by_cases hle : x.start ≤ e.start
    · rw [if_pos hle]
      refine List.pairwise_cons.mpr ⟨?_, ih hxs⟩
      intro m hm
      rcases mem_insertByStart hm with h1 | h1
      · subst h1; exact hle
      · exact hx m h1
    · rw [if_neg hle]
      refine List.pairwise_cons.mpr ⟨?_, h⟩
      intro m hm
      rcases List.mem_cons.mp hm with h1 | h1
      · subst h1; omega
      · exact Nat.le_trans (by omega) (hx m h1)

/-- The stable insertion sort produces a start-sorted list. -/
theorem sortByStart_sorted (l : List Entity) :
    (sortByStart l).Pairwise (fun a b => a.start ≤ b.start) := by
  suffices h : ∀ acc : List Entity, acc.Pairwise (fun a b => a.start ≤ b.start) →
      (l.foldl (fun acc e => insertByStart e acc) acc).Pairwise
        (fun a b => a.start ≤ b.start) from h [] (List.Pairwise.nil)
  induction l with
  | nil => intro acc h; exact h
  | cons e tail ih =>
    intro acc h
    rw [List.foldl_cons]
    exact ih _ (insertByStart_sorted h)

/-- C1 (core): `_remove_overlaps` always returns a pairwise
non-overlapping entity list. -/
theorem remove_overlaps_no_overlap (entities : List Entity) :
    NoOlapList (remove_overlaps entities) := by
  unfold remove_overlaps
  exact foldl_rmLoop_no_overlap _ [] List.Pairwise.nil (by simp) (sortByStart_sorted entities)

/-- Whether the simulated adjudicator confirms an entity (the Boolean the
`analyze_with_llm` loop branches on). -/
def llmConfirm (e : Entity) : Bool :=
  match simulate_llm_validation e with
  | Except.ok true => true
  | _ => false

/-- A successful `analyze_with_llm` run keeps exactly the confirmed
entities, each boosted and retagged, in order. -/
theorem analyze_with_llm_eq {t : Str} : ∀ {u v : List Entity},
    analyze_with_llm t u = Except.ok v →
    v = (u.filter llmConfirm).map boostEntity := by
  intro u
  induction u with
  | nil =>
    intro v h
    rw [analyze_with_llm] at h
    cases h
    rfl
  | cons e rest ih =>
    intro v h
    rw [analyze_with_llm] at h
    obtain ⟨ok, hok, h2⟩ := exbind_ok h
    obtain ⟨tail, htail, h3⟩ := exbind_ok h2
    have hcf : llmConfirm e = ok := by
      unfold llmConfirm
      rw [hok]
      cases ok <;> rfl
    cases ok with
    | false =>
      cases h3
      rw [List.filter_cons, hcf, if_neg (by simp)]
      exact ih htail
    | true =>
      cases h3
      rw [List.filter_cons, hcf, if_pos rfl, List.map_cons, ih htail]

/-- Splitting a pairwise non-overlapping list by two disjoint predicates
and boosting the second part preserves pairwise non-overlap (the boost
does not touch the spans). -/
theorem noOlap_filter_append_map (p q : Entity → Bool)
    (hdisj : ∀ x, p x = true → q x = true → False) :
    ∀ l : List Entity, NoOlapList l →
    NoOlapList (l.filter p ++ (l.filter q).map boostEntity) := by
  intro l
  induction l with
  | nil => intro _; simp [NoOlapList]
  | cons x xs ih =>
    intro h
    obtain ⟨hx, hxs⟩ := List.pairwise_cons.mp h
    rw [List.filter_cons, List.filter_cons]
    by_cases hp : p x = true
    · have hq : ¬ q x = true := fun hqv => hdisj x hp hqv
      rw [if_pos hp, if_neg hq]
      unfold NoOlapList
      rw [List.cons_append]
      refine List.pairwise_cons.mpr ⟨?_, ih hxs⟩
      intro m hm
      rcases List.mem_append.mp hm with h1 | h1
      · exact hx m (List.mem_of_mem_filter h1)
      · obtain ⟨m', hm', hbm⟩ := List.mem_map.mp h1
        subst hbm
        exact hx m' (List.mem_of_mem_filter hm')
    · rw [if_neg hp]
      by_cases hq : q x = true
      · rw [if_pos hq, List.map_cons]
        unfold NoOlapList at ih ⊢
        rw [List.pairwise_append]
        have ihx := ih hxs
        rw [List.pairwise_append] at ihx
        refine ⟨ihx.1, ?_, ?_⟩
        · refine List.pairwise_cons.mpr ⟨?_, ihx.2.1⟩
          intro m hm
          obtain ⟨m', hm', hbm⟩ := List.mem_map.mp hm
          subst hbm
          exact hx m' (List.mem_of_mem_filter hm')
        · intro a ha b hb
          rcases List.mem_cons.mp hb with h1 | h1
          · subst h1
            intro hol
            exact hx a (List.mem_of_mem_filter ha) (Olap_symm hol)
          · exact ihx.2.2 a ha b h1
      · rw [if_neg hq]
        exact ih hxs

/-- When the tier-3 stage reports that the LLM was invoked with `u`, then
`u` was exactly the uncertain subset, and the result list is the certain
subset followed by the boosted confirmed entities. -/
theorem llmStage_ok_some {cfg : AnonCfg} {text : Str} {all : List Entity} {cc : ℚ}
    {res : List Entity × ℚ} {u : List Entity}
    (h : llmStage cfg text all cc = Except.ok (res, some u)) :
    u = all.filter (fun e => decide (e.confidence < cfg.llm_threshold)) ∧
    res.1 = all.filter (fun e => decide (cfg.llm_threshold ≤ e.confidence)) ++
      (u.filter llmConfirm).map boostEntity := by
  simp only [llmStage] at h
  by_cases h1 : (cfg.enable_llm && decide (cc < cfg.llm_threshold)) = true
  · rw [if_pos h1] at h
    by_cases h2 : (all.filter (fun e => decide (e.confidence < cfg.llm_threshold))).isEmpty = true
    · rw [if_pos h2] at h
      simp at h
    · rw [if_neg h2] at h
      obtain ⟨validated, hval, h3⟩ := exbind_ok h
      have h4 := analyze_with_llm_eq hval
      cases h3
      exact ⟨rfl, by rw [h4]⟩
  · rw [if_neg h1] at h
    simp at h

/-- When the tier-3 stage reports no LLM invocation, the entity list and
confidence pass through unchanged. -/
theorem llmStage_ok_none {cfg : AnonCfg} {text : Str} {all : List Entity} {cc : ℚ}
    {res : List Entity × ℚ}
    (h : llmStage cfg text all cc = Except.ok (res, none)) : res = (all, cc) := by
  simp only [llmStage] at h
  by_cases h1 : (cfg.enable_llm && decide (cc < cfg.llm_threshold)) = true
  · rw [if_pos h1] at h
    by_cases h2 : (all.filter (fun e => decide (e.confidence < cfg.llm_threshold))).isEmpty = true
    · rw [if_pos h2] at h
      cases h
      rfl
    · rw [if_neg h2] at h
      obtain ⟨validated, hval, h3⟩ := exbind_ok h
      simp at h3
  · rw [if_neg h1] at h
    cases h
    rfl

/-- A successful static analysis returns an overlap-resolved list. -/
theorem analyze_inv {text : Str} {sr : List Entity × ℚ}
    (h : analyze_with_static_rules text = Except.ok sr) :
    ∃ es, sr.1 = remove_overlaps es := by
  unfold analyze_with_static_rules at h
  obtain ⟨es, _, h2⟩ := exbind_ok h
  cases h2
  exact ⟨es, rfl⟩

/-- Inversion of a successful `process` call: either an early return of the
static result with the original state and an all-quiet trace, or (with
Presidio enabled) the merged tier-2 result — returned directly at medium
confidence, or passed through the tier-3 stage and recorded. -/
theorem process_inv {cfg : AnonCfg} {analyzer : PresidioFn} {time_ms : ℚ} {st : AnonState}
    {text : Str} {ua : Bool} {r : (List Entity × ℚ) × AnonState × ProcTrace}
    (h : process cfg analyzer time_ms st text ua = Except.ok r) :
    (∃ sr, analyze_with_static_rules text = Except.ok sr ∧ r = (sr, st, ⟨false, none⟩)) ∨
    (cfg.enable_presidio = true ∧
      ∃ sr, analyze_with_static_rules text = Except.ok sr ∧
        (r = ((remove_overlaps (sr.1 ++ (analyze_with_presidio analyzer text).1),
               avgConf (remove_overlaps (sr.1 ++ (analyze_with_presidio analyzer text).1))),
              st, ⟨true, none⟩) ∨
         ∃ step, llmStage cfg text
             (remove_overlaps (sr.1 ++ (analyze_with_presidio analyzer text).1))
             (avgConf (remove_overlaps (sr.1 ++ (analyze_with_presidio analyzer text).1))) =
             Except.ok step ∧
           r = (step.1, record_processing cfg text step.1.1 step.1.2 time_ms st,
                ⟨true, step.2⟩))) := by
  unfold process at h
  by_cases hA : (!ua || !cfg.enable_presidio) = true
  · rw [if_pos hA] at h
    obtain ⟨sr, hsr, h2⟩ := exbind_ok h
    cases h2
    exact Or.inl ⟨sr, hsr, rfl⟩
  · rw [if_neg hA] at h
    have hpres : cfg.enable_presidio = true := by
      rcases hb : cfg.enable_presidio
      · rw [hb] at hA
        simp at hA
      · rfl
    obtain ⟨sr, hsr, h2⟩ := exbind_ok h
    simp only [Bind.bind, Except.bind] at h2
    by_cases hB : cfg.confidence_threshold ≤ sr.2
    · rw [if_pos hB] at h2
      cases h2
      exact Or.inl ⟨sr, hsr, rfl⟩
    · rw [if_neg hB] at h2
      by_cases hC : cfg.llm_threshold ≤
          avgConf (remove_overlaps (sr.1 ++ (analyze_with_presidio analyzer text).1))
      · rw [if_pos hC] at h2
        cases h2
        exact Or.inr ⟨hpres, sr, hsr, Or.inl rfl⟩
      · rw [if_neg hC] at h2
        obtain ⟨step, hstep, h3⟩ := exbind_ok h2
        cases h3
        exact Or.inr ⟨hpres, sr, hsr, Or.inr ⟨step, hstep, rfl⟩⟩

/-- C1: no two entities in the output of `_remove_overlaps` overlap; in
consequence every entity list returned by `analyze_with_static_rules` and
by `process` is pairwise non-overlapping. -/
theorem c1_no_overlap :
    (∀ entities : List Entity, NoOlapList (remove_overlaps entities)) ∧
    (∀ (text : Str) (ents : List Entity) (conf : ℚ),
      analyze_with_static_rules text = Except.ok (ents, conf) → NoOlapList ents) ∧
    (∀ (cfg : AnonCfg) (analyzer : PresidioFn) (time_ms : ℚ) (st : AnonState) (text : Str)
       (ua : Bool) (ents : List Entity) (conf : ℚ) (st2 : AnonState) (tr : ProcTrace),
      process cfg analyzer time_ms st text ua = Except.ok ((ents, conf), st2, tr) →
      NoOlapList ents) := by
  have hstatic : ∀ (text : Str) (ents : List Entity) (conf : ℚ),
      analyze_with_static_rules text = Except.ok (ents, conf) → NoOlapList ents := by
    intro text ents conf h
    obtain ⟨es, hes⟩ := analyze_inv h
    rw [show ((ents, conf) : List Entity × ℚ).1 = ents from rfl] at hes
    rw [hes]
    exact remove_overlaps_no_overlap es
  refine ⟨remove_overlaps_no_overlap, hstatic, ?_⟩
  intro cfg analyzer time_ms st text ua ents conf st2 tr h
  rcases process_inv h with ⟨sr, hsr, hr⟩ | ⟨_, sr, hsr, hr | ⟨step, hstep, hr⟩⟩
  · have : ents = sr.1 := by
      rw [Prod.ext_iff] at hr
      obtain ⟨h1, _⟩ := hr
      rw [Prod.ext_iff] at h1
      exact h1.1
    rw [this]
    exact hstatic text sr.1 sr.2 (by rwa [← Prod.mk.eta (p := sr)] at hsr)
  · have : ents = remove_overlaps (sr.1 ++ (analyze_with_presidio analyzer text).1) := by
      rw [Prod.ext_iff] at hr
      obtain ⟨h1, _⟩ := hr
      rw [Prod.ext_iff] at h1
      exact h1.1
    rw [this]
    exact remove_overlaps_no_overlap _
  · have hents : ents = step.1.1 := by
      rw [Prod.ext_iff] at hr
      obtain ⟨h1, _⟩ := hr
      rw [Prod.ext_iff] at h1
      exact h1.1
    have hall : NoOlapList
        (remove_overlaps (sr.1 ++ (analyze_with_presidio analyzer text).1)) :=
      remove_overlaps_no_overlap _
    rcases htr : step.2 with _ | u
    · have := llmStage_ok_none (by rwa [← Prod.mk.eta (p := step), htr] at hstep)
      rw [hents, show step.1.1 = (step.1).1 from rfl, this]
      exact hall
    · obtain ⟨hu, hres⟩ := llmStage_ok_some (by rwa [← Prod.mk.eta (p := step), htr] at hstep)
      rw [hents, hres, hu, List.filter_filter]
      exact noOlap_filter_append_map _ _
        (fun x hp hq => by
          simp only [Bool.and_eq_true, decide_eq_true_eq] at hp hq
          exact absurd hq.2 (by simp [not_lt.mpr hp]))
        _ hall

/-- The single DNI entity detected in the witness text. -/
def dniEnt : Entity :=
  ⟨("ES_DNI").data, ("12345678Z").data, 0, 9, (9 : ℚ)/10, ("static").data⟩

/-- Witness for C1: the no-overlap invariant instantiated on the concrete
entity list `process` returns for `"12345678Z"`. -/
theorem c1_no_overlap_witness : NoOlapList [dniEnt] :=
  c1_no_overlap.2.2 defaultCfg (fun _ => []) 5 ⟨[], []⟩ (("12345678Z").data) true
    [dniEnt] ((9 : ℚ)/10) ⟨[], []⟩ ⟨false, none⟩ (by with_unfolding_all decide)

/-- C3: whenever the static tier's average confidence reaches
`confidence_threshold`, `process` returns the static result unchanged, with
the statistics state untouched, and the trace records that neither the
Presidio analyzer nor the LLM stage was invoked. -/
theorem c3_short_circuit (cfg : AnonCfg) (analyzer : PresidioFn) (time_ms : ℚ)
    (st : AnonState) (text : Str) (ua : Bool) (se : List Entity) (sc : ℚ)
    (h : analyze_with_static_rules text = Except.ok (se, sc))
    (hthr : cfg.confidence_threshold ≤ sc) :
    process cfg analyzer time_ms st text ua = Except.ok ((se, sc), st, ⟨false, none⟩) := by
  unfold process
  by_cases hA : (!ua || !cfg.enable_presidio) = true
  · rw [if_pos hA, h]
    rfl
  · rw [if_neg hA, h]
    simp only [Bind.bind, Except.bind]
    rw [if_pos hthr]

/-- Witness for C3: on `"12345678Z"` the static tier alone scores 0.9 ≥
0.85, and `process` short-circuits. -/
theorem c3_short_circuit_witness :
    process ⟨(85 : ℚ)/100, (50 : ℚ)/100, true, true⟩ (fun _ => []) 5 ⟨[], []⟩
        (("12345678Z").data) true =
      Except.ok (([dniEnt], (9 : ℚ)/10), (⟨[], []⟩ : AnonState), ⟨false, none⟩) :=
  c3_short_circuit ⟨(85 : ℚ)/100, (50 : ℚ)/100, true, true⟩ (fun _ => []) 5 ⟨[], []⟩
    (("12345678Z").data) true [dniEnt] ((9 : ℚ)/10)
    (by with_unfolding_all decide) (by with_unfolding_all decide)

/-- C9: when `process` detects no entities, `anonymize_text` returns the
input text unchanged, whatever the replacement method. -/
theorem c9_identity (cfg : AnonCfg) (analyzer : PresidioFn) (md5hex : Str → Str)
    (time_ms : ℚ) (st : AnonState) (text : Str) (method : Str) (conf : ℚ)
    (st2 : AnonState) (tr : ProcTrace)
    (h : process cfg analyzer time_ms st text true = Except.ok (([], conf), st2, tr)) :
    anonymize_text cfg analyzer md5hex time_ms st text method = Except.ok (text, st2) := by
  unfold anonymize_text
  rw [h]
  rfl

/-- Witness for C9: the empty string yields no entities, and all three
replacement methods leave it unchanged. -/
theorem c9_identity_witness :
    anonymize_text defaultCfg (fun _ => []) (fun _ => []) 5 ⟨[], []⟩ [] (("mask").data) =
      Except.ok ([], (⟨[], []⟩ : AnonState)) ∧
    anonymize_text defaultCfg (fun _ => []) (fun _ => []) 5 ⟨[], []⟩ [] (("replace").data) =
      Except.ok ([], (⟨[], []⟩ : AnonState)) ∧
    anonymize_text defaultCfg (fun _ => []) (fun _ => []) 5 ⟨[], []⟩ [] (("hash").data) =
      Except.ok ([], (⟨[], []⟩ : AnonState)) :=
  ⟨c9_identity defaultCfg (fun _ => []) (fun _ => []) 5 ⟨[], []⟩ [] (("mask").data) 0
      ⟨[], []⟩ ⟨false, none⟩ (by with_unfolding_all decide),
   c9_identity defaultCfg (fun _ => []) (fun _ => []) 5 ⟨[], []⟩ [] (("replace").data) 0
      ⟨[], []⟩ ⟨false, none⟩ (by with_unfolding_all decide),
   c9_identity defaultCfg (fun _ => []) (fun _ => []) 5 ⟨[], []⟩ [] (("hash").data) 0
      ⟨[], []⟩ ⟨false, none⟩ (by with_unfolding_all decide)⟩

/-- C7 (counterexample): in the default configuration (Presidio disabled)
`process` returns without appending any processing-stats record — the
statistics state comes back exactly as it went in, refuting "every call
appends exactly one record". -/
theorem c7_counterexample :
    process defaultCfg (fun _ => []) 5 ⟨[], []⟩ (("x").data) true =
      Except.ok (([], 0), (⟨[], []⟩ : AnonState), ⟨false, none⟩) := by
  with_unfolding_all decide

/-- C7 (amended): path-by-path characterization of recording.  A
`process` call appends nothing in static-only mode, nothing on the tier-1
confidence exit, and nothing on the tier-2 confidence exit; only a call
that reaches the tier-3 stage (adaptive mode, Presidio enabled, static
confidence below `confidence_threshold`, merged confidence below
`llm_threshold`) records — and it appends exactly one stats record
carrying the text length, entity count, final confidence and latency,
plus, exactly when the final confidence is below `llm_threshold`, one
uncertain-case entry storing at most 100 characters of the text. -/
theorem c7_amended (cfg : AnonCfg) (analyzer : PresidioFn) (time_ms : ℚ) (st : AnonState)
    (text : Str) (ua : Bool) (ents : List Entity) (conf : ℚ) (st2 : AnonState)
    (tr : ProcTrace)
    (h : process cfg analyzer time_ms st text ua = Except.ok ((ents, conf), st2, tr)) :
    (cfg.enable_presidio = false → st2 = st) ∧
    ((!ua || !cfg.enable_presidio) = true → st2 = st) ∧
    ((!ua || !cfg.enable_presidio) = false →
      ∀ sr, analyze_with_static_rules text = Except.ok sr →
        (cfg.confidence_threshold ≤ sr.2 → st2 = st) ∧
        (¬ cfg.confidence_threshold ≤ sr.2 →
          (cfg.llm_threshold ≤ avgConf (remove_overlaps
              (sr.1 ++ (analyze_with_presidio analyzer text).1)) → st2 = st) ∧
          (¬ cfg.llm_threshold ≤ avgConf (remove_overlaps
              (sr.1 ++ (analyze_with_presidio analyzer text).1)) →
            st2.processing_stats = st.processing_stats ++
              [⟨text.length, ents.length, conf, time_ms⟩] ∧
            st2.uncertain_cases = (if conf < cfg.llm_threshold then
              st.uncertain_cases ++ [⟨text.take 100, ents, conf⟩]
              else st.uncertain_cases) ∧
            (text.take 100).length ≤ 100))) := by
  unfold process at h
  by_cases hA : (!ua || !cfg.enable_presidio) = true
  · rw [if_pos hA] at h
    obtain ⟨sr0, _, h2⟩ := exbind_ok h
    simp only [Except.ok.injEq, Prod.mk.injEq] at h2
    have hst : st2 = st := h2.2.1.symm
    refine ⟨fun _ => hst, fun _ => hst, ?_⟩
    intro hAf
    exact absurd hA (by simp [hAf])
  · rw [if_neg hA] at h
    obtain ⟨sr0, hsr0, h2⟩ := exbind_ok h
    simp only [Bind.bind, Except.bind] at h2
    have hpres : cfg.enable_presidio = true := by
      rcases hb : cfg.enable_presidio
      · rw [hb] at hA
        simp at hA
      · rfl
    refine ⟨fun hf => absurd hpres (by rw [hf]; simp), fun hT => absurd hT hA, ?_⟩
    intro _ sr hsr
    rw [hsr0] at hsr
    injection hsr with hsr2
    subst hsr2
    by_cases hB : cfg.confidence_threshold ≤ sr0.2
    · rw [if_pos hB] at h2
      simp only [Except.ok.injEq, Prod.mk.injEq] at h2
      have hst : st2 = st := h2.2.1.symm
      exact ⟨fun _ => hst, fun hnB => absurd hB hnB⟩
    · rw [if_neg hB] at h2
      refine ⟨fun hBT => absurd hBT hB, fun _ => ?_⟩
      by_cases hC : cfg.llm_threshold ≤ avgConf (remove_overlaps
          (sr0.1 ++ (analyze_with_presidio analyzer text).1))
      · rw [if_pos hC] at h2
        simp only [Except.ok.injEq, Prod.mk.injEq] at h2
        have hst : st2 = st := h2.2.1.symm
        exact ⟨fun _ => hst, fun hnC => absurd hC hnC⟩
      · rw [if_neg hC] at h2
        obtain ⟨step, hstep, h3⟩ := exbind_ok h2
        simp only [Except.ok.injEq, Prod.mk.injEq] at h3
        obtain ⟨hse, hst, _⟩ := h3
        have he1 : step.1.1 = ents := by rw [hse]
        have he2 : step.1.2 = conf := by rw [hse]
        refine ⟨fun hCT => absurd hCT hC, fun _ => ?_⟩
        rw [← hst]
        unfold record_processing
        rw [he1, he2]
        refine ⟨rfl, rfl, ?_⟩
        rw [List.length_take]
        omega

/-- C4: (i) whenever a `process` call invokes the LLM stage with a list
`u`, every entity of `u` has confidence strictly below `llm_threshold`;
(ii) the tier-3 stage sends exactly the uncertain subset and returns the
certain subset (kept unchanged) followed by the boosted confirmed
entities, rejected entities being dropped; (iii) boosting sets the
confidence to `min(1.0, c + 0.3)` and the method to `llm_validated`,
leaving all other fields unchanged. -/
theorem c4_llm_stage :
    (∀ (cfg : AnonCfg) (analyzer : PresidioFn) (time_ms : ℚ) (st : AnonState) (text : Str)
       (ua : Bool) (ents : List Entity) (conf : ℚ) (st2 : AnonState) (tr : ProcTrace)
       (u : List Entity),
      process cfg analyzer time_ms st text ua = Except.ok ((ents, conf), st2, tr) →
      tr.llm_called_with = some u →
      ∀ e ∈ u, e.confidence < cfg.llm_threshold) ∧
    (∀ (cfg : AnonCfg) (text : Str) (all : List Entity) (cc : ℚ)
       (res : List Entity × ℚ) (u : List Entity),
      llmStage cfg text all cc = Except.ok (res, some u) →
      u = all.filter (fun e => decide (e.confidence < cfg.llm_threshold)) ∧
      res.1 = all.filter (fun e => decide (cfg.llm_threshold ≤ e.confidence)) ++
        (u.filter llmConfirm).map boostEntity) ∧
    (∀ e : Entity, boostEntity e =
      ⟨e.entity_type, e.text, e.start, e.stop, pyMin 1 (e.confidence + (3 : ℚ)/10),
       ("llm_validated").data⟩) := by
  refine ⟨?_, fun cfg text all cc res u h => llmStage_ok_some h, fun e => rfl⟩
  intro cfg analyzer time_ms st text ua ents conf st2 tr u h htr
  rcases process_inv h with ⟨sr, _, hr⟩ | ⟨_, sr, _, hr | ⟨step, hstep, hr⟩⟩
  · exfalso
    rw [Prod.ext_iff] at hr
    have h4 := hr.2
    rw [Prod.ext_iff] at h4
    have h5 : tr = (⟨false, none⟩ : ProcTrace) := h4.2
    rw [h5] at htr
    simp at htr
  · exfalso
    rw [Prod.ext_iff] at hr
    have h4 := hr.2
    rw [Prod.ext_iff] at h4
    have h5 : tr = (⟨true, none⟩ : ProcTrace) := h4.2
    rw [h5] at htr
    simp at htr
  · have htr2 : step.2 = some u := by
      rw [Prod.ext_iff] at hr
      have h4 := hr.2
      rw [Prod.ext_iff] at h4
      have h5 : tr = (⟨true, step.2⟩ : ProcTrace) := h4.2
      rw [h5] at htr
      exact htr
    obtain ⟨hu, _⟩ := llmStage_ok_some (by rwa [← Prod.mk.eta (p := step), htr2] at hstep)
    intro e he
    rw [hu] at he
    have := List.of_mem_filter he
    simpa using this

/-- A low-confidence entity coming from the injected statistical analyzer
(used to exercise the tier-3 stage). -/
def eLow : Entity := ⟨("PERSON").data, [], 0, 1, (2 : ℚ)/10, ("presidio").data⟩

/-- A configuration with every tier enabled. -/
def cfgLLM : AnonCfg := ⟨(85 : ℚ)/100, (50 : ℚ)/100, true, true⟩

/-- Witness for C4: a concrete tier-3 run.  The statistical analyzer
injects one entity with confidence 0.2 < 0.5 on the empty text; the stage
is invoked exactly with it; the simulated adjudicator rejects it, so it is
dropped from the final list. -/
theorem c4_llm_stage_witness :
    ((2 : ℚ)/10 < cfgLLM.llm_threshold) ∧
    [eLow] = [eLow].filter (fun e => decide (e.confidence < cfgLLM.llm_threshold)) ∧
    (([], 0) : List Entity × ℚ).1 =
      [eLow].filter (fun e => decide (cfgLLM.llm_threshold ≤ e.confidence)) ++
      (([eLow].filter llmConfirm).map boostEntity) :=
  ⟨c4_llm_stage.1 cfgLLM (fun _ => [⟨("PERSON").data, 0, 1, (2 : ℚ)/10⟩]) 5 ⟨[], []⟩ [] true
      [] 0 ⟨[⟨0, 0, 0, 5⟩], [⟨[], [], 0⟩]⟩ ⟨true, some [eLow]⟩ [eLow]
      (by with_unfolding_all decide) rfl eLow (List.mem_singleton.mpr rfl),
   (c4_llm_stage.2.1 cfgLLM [] [eLow] ((2 : ℚ)/10) ([], 0) [eLow]
      (by with_unfolding_all decide)).1,
   (c4_llm_stage.2.1 cfgLLM [] [eLow] ((2 : ℚ)/10) ([], 0) [eLow]
      (by with_unfolding_all decide)).2⟩

/-- Witness for C7 (amended): two concrete runs.  In static-only mode
(`defaultCfg`) the state passes through unchanged; in the all-tiers
configuration, a run that reaches the tier-3 stage appends exactly one
stats record and one uncertain-case entry. -/
theorem c7_amended_witness :
    ((⟨[], []⟩ : AnonState) = (⟨[], []⟩ : AnonState)) ∧
    ((⟨[⟨0, 0, 0, 5⟩], [⟨[], [], 0⟩]⟩ : AnonState).processing_stats =
       (⟨[], []⟩ : AnonState).processing_stats ++
         [⟨([] : Str).length, ([] : List Entity).length, 0, 5⟩] ∧
     (⟨[⟨0, 0, 0, 5⟩], [⟨[], [], 0⟩]⟩ : AnonState).uncertain_cases =
       (if (0 : ℚ) < cfgLLM.llm_threshold then
         (⟨[], []⟩ : AnonState).uncertain_cases ++ [⟨([] : Str).take 100, [], 0⟩]
         else (⟨[], []⟩ : AnonState).uncertain_cases) ∧
     (([] : Str).take 100).length ≤ 100) :=
  ⟨(c7_amended defaultCfg (fun _ => []) 5 ⟨[], []⟩ (("x").data) true [] 0 ⟨[], []⟩
      ⟨false, none⟩ (by with_unfolding_all decide)).2.1 (by with_unfolding_all decide),
   (((c7_amended cfgLLM (fun _ => [⟨("PERSON").data, 0, 1, (2 : ℚ)/10⟩]) 5 ⟨[], []⟩ []
        true [] 0 ⟨[⟨0, 0, 0, 5⟩], [⟨[], [], 0⟩]⟩ ⟨true, some [eLow]⟩
        (by with_unfolding_all decide)).2.2 (by with_unfolding_all decide)
        ([], 0) (by with_unfolding_all decide)).2
        (by with_unfolding_all decide)).2
        (by with_unfolding_all decide)⟩

/-!
C5 and C6: the batch entry point.  Updating one key of a record leaves
every other key's binding unchanged; chaining the three field updates gives
the frame property per record, and an induction over the batch lifts it to
the whole list.  For C5, processing distributes over list append, so a
malformed record aborts the batch regardless of what precedes it.
-/

/-- Setting key `k` does not change the binding of any other key. -/
theorem dictGet_dictSet_ne : ∀ (r : TxRecord) (k : Str) (v : PyVal) (k2 : Str), k2 ≠ k →
    dictGet (dictSet r k v) k2 = dictGet r k2 := by
  intro r
  induction r with
  | nil =>
    intro k v k2 hne
    simp [dictSet, dictGet, Ne.symm hne]
  | cons p rest ih =>
    intro k v k2 hne
    rw [dictSet]
    by_cases hp : p.1 = k
    · rw [if_pos hp, dictGet, dictGet, if_neg (Ne.symm hne), if_neg (by rw [hp]; exact Ne.symm hne)]
    · rw [if_neg hp, dictGet, dictGet]
      by_cases hk2 : p.1 = k2
      · rw [if_pos hk2, if_pos hk2]
      · rw [if_neg hk2, if_neg hk2]
        exact ih k v k2 hne

/-- Anonymizing one field leaves every other key's binding unchanged. -/
theorem anonymize_field_frame {cfg : AnonCfg} {analyzer : PresidioFn} {md5hex : Str → Str}
    {time_ms : ℚ} {st : AnonState} {r : TxRecord} {k : Str} {a : TxRecord × AnonState}
    (h : anonymize_field cfg analyzer md5hex time_ms st r k = Except.ok a) :
    ∀ k2, k2 ≠ k → dictGet a.1 k2 = dictGet r k2 := by
  unfold anonymize_field at h
  cases hg : dictGet r k with
  | none =>
    rw [hg] at h
    cases h
    intro k2 _
    rfl
  | some v =>
    rw [hg] at h
    obtain ⟨b, _, h2⟩ := exbind_ok h
    cases h2
    intro k2 hne
    exact dictGet_dictSet_ne r k _ k2 hne

/-- Anonymizing one record leaves every key other than `concept`,
`description` and `notes` unchanged. -/
theorem anonymize_one_tx_frame {cfg : AnonCfg} {analyzer : PresidioFn} {md5hex : Str → Str}
    {time_ms : ℚ} {st : AnonState} {tx : TxRecord} {a : TxRecord × AnonState}
    (h : anonymize_one_tx cfg analyzer md5hex time_ms st tx = Except.ok a) :
    ∀ k, k ≠ ("concept").data → k ≠ ("description").data → k ≠ ("notes").data →
      dictGet a.1 k = dictGet tx k := by
  unfold anonymize_one_tx at h
  obtain ⟨a1, h1, h⟩ := exbind_ok h
  obtain ⟨a2, h2, h⟩ := exbind_ok h
  obtain ⟨a3, h3, h⟩ := exbind_ok h
  cases h
  intro k hk1 hk2 hk3
  rw [anonymize_field_frame h3 k hk3, anonymize_field_frame h2 k hk2,
    anonymize_field_frame h1 k hk1]

/-- The batch frame property, record by record. -/
theorem anonymize_transactions_frame {cfg : AnonCfg} {analyzer : PresidioFn}
    {md5hex : Str → Str} {time_ms : ℚ} : ∀ {txs : List TxRecord} {st : AnonState}
    {out : List TxRecord × AnonState},
    anonymize_transactions cfg analyzer md5hex time_ms st txs = Except.ok out →
    List.Forall₂ (fun tx r => ∀ k, k ≠ ("concept").data → k ≠ ("description").data →
      k ≠ ("notes").data → dictGet r k = dictGet tx k) txs out.1 := by
  intro txs
  induction txs with
  | nil =>
    intro st out h
    rw [anonymize_transactions] at h
    cases h
    exact List.Forall₂.nil
  | cons tx rest ih =>
    intro st out h
    rw [anonymize_transactions] at h
    obtain ⟨a, ha, h2⟩ := exbind_ok h
    obtain ⟨b, hb, h3⟩ := exbind_ok h2
    cases h3
    exact List.Forall₂.cons (anonymize_one_tx_frame ha) (ih hb)

/-- The `amount` field of a record, 0 when absent or non-numeric. -/
def recAmount (r : TxRecord) : ℚ :=
  match dictGet r (("amount").data) with
  | some (PyVal.num q) => q
  | _ => 0

/-- C6: `anonymize_transactions` returns one record per input record;
every key other than the three textual fields keeps its binding (in
particular `amount`, `category` and `date`); hence the sum of the amounts
and the per-record `category` bindings of the output equal those of the
input. -/
theorem c6_financial_integrity (cfg : AnonCfg) (analyzer : PresidioFn) (md5hex : Str → Str)
    (time_ms : ℚ) (st : AnonState) (txs out : List TxRecord) (st2 : AnonState)
    (h : anonymize_transactions cfg analyzer md5hex time_ms st txs = Except.ok (out, st2)) :
    out.length = txs.length ∧
    List.Forall₂ (fun tx r => ∀ k, k ≠ ("concept").data → k ≠ ("description").data →
      k ≠ ("notes").data → dictGet r k = dictGet tx k) txs out ∧
    (out.map recAmount).sum = (txs.map recAmount).sum ∧
    out.map (fun r => dictGet r (("category").data)) =
      txs.map (fun r => dictGet r (("category").data)) := by
  have hf : List.Forall₂ (fun tx r => ∀ k, k ≠ ("concept").data →
      k ≠ ("description").data → k ≠ ("notes").data →
      dictGet r k = dictGet tx k) txs out := anonymize_transactions_frame h
  clear h
  refine ⟨hf.length_eq.symm, hf, ?_, ?_⟩
  · induction hf with
    | nil => rfl
    | @cons a b l1 l2 hab htail ih =>
      rw [List.map_cons, List.map_cons, List.sum_cons, List.sum_cons, ih]
      have hamt : recAmount b = recAmount a := by
        unfold recAmount
        rw [hab (("amount").data) (by decide) (by decide) (by decide)]
      rw [hamt]
  · induction hf with
    | nil => rfl
    | @cons a b l1 l2 hab htail ih =>
      rw [List.map_cons, List.map_cons, ih,
        hab (("category").data) (by decide) (by decide) (by decide)]

/-- A well-formed transaction record. -/
def goodTx : TxRecord :=
  [((("description").data), PyVal.str (("abc").data)),
   ((("amount").data), PyVal.num 10),
   ((("category").data), PyVal.str (("food").data))]

/-- Witness for C6: a concrete batch round-trips with its length, amounts
and categories intact. -/
theorem c6_financial_integrity_witness :
    ([goodTx] : List TxRecord).length = ([goodTx] : List TxRecord).length ∧
    List.Forall₂ (fun tx r => ∀ k, k ≠ ("concept").data → k ≠ ("description").data →
      k ≠ ("notes").data → dictGet r k = dictGet tx k) [goodTx] [goodTx] ∧
    (([goodTx] : List TxRecord).map recAmount).sum =
      (([goodTx] : List TxRecord).map recAmount).sum ∧
    ([goodTx] : List TxRecord).map (fun r => dictGet r (("category").data)) =
      ([goodTx] : List TxRecord).map (fun r => dictGet r (("category").data)) :=
  c6_financial_integrity defaultCfg (fun _ => []) (fun _ => []) 5 ⟨[], []⟩ [goodTx]
    [goodTx] ⟨[], []⟩ (by with_unfolding_all decide)

/-- A transaction record whose `description` is not a string. -/
def badTx : TxRecord :=
  [((("description").data), PyVal.num 42), ((("amount").data), PyVal.num 7)]

/-- C5 (counterexample): a batch of a well-formed record followed by a
record with a numeric `description` does not return per-record results —
the whole call raises `TypeError` (from `re.finditer` on a non-string),
and no error list exists. -/
theorem c5_counterexample :
    anonymize_transactions defaultCfg (fun _ => []) (fun _ => []) 5 ⟨[], []⟩
      [goodTx, badTx] = Except.error PyErr.typeError := by
  with_unfolding_all decide

/-- Batch processing distributes over append. -/
theorem anonymize_transactions_append {cfg : AnonCfg} {analyzer : PresidioFn}
    {md5hex : Str → Str} {time_ms : ℚ} (suf : List TxRecord) :
    ∀ {pre : List TxRecord} {st : AnonState} {out : List TxRecord × AnonState},
    anonymize_transactions cfg analyzer md5hex time_ms st pre = Except.ok out →
    anonymize_transactions cfg analyzer md5hex time_ms st (pre ++ suf) =
      (anonymize_transactions cfg analyzer md5hex time_ms out.2 suf).map
        (fun p => (out.1 ++ p.1, p.2)) := by
  intro pre
  induction pre with
  | nil =>
    intro st out h
    rw [anonymize_transactions] at h
    cases h
    rw [List.nil_append]
    cases hx : anonymize_transactions cfg analyzer md5hex time_ms st suf with
    | error e => rfl
    | ok p => simp [Except.map]
  | cons tx rest ih =>
    intro st out h
    rw [anonymize_transactions] at h
    obtain ⟨a, ha, h2⟩ := exbind_ok h
    obtain ⟨b, hb, h3⟩ := exbind_ok h2
    cases h3
    rw [List.cons_append, anonymize_transactions, ha]
    simp only [Bind.bind, Except.bind]
    rw [ih hb]
    cases hx : anonymize_transactions cfg analyzer md5hex time_ms b.2 suf with
    | error e => rfl
    | ok p => simp [Except.map]

/-- C5 (amended): appending `badTx` (non-string `description`) to any batch
whose prefix processes successfully makes the whole call raise `TypeError`,
aborting the batch: the other records' results are discarded, and no
per-record error list is produced. -/
theorem c5_amended (cfg : AnonCfg) (analyzer : PresidioFn) (md5hex : Str → Str)
    (time_ms : ℚ) (st : AnonState) (pre post : List TxRecord)
    (h : ∃ out, anonymize_transactions cfg analyzer md5hex time_ms st pre = Except.ok out) :
    anonymize_transactions cfg analyzer md5hex time_ms st (pre ++ badTx :: post) =
      Except.error PyErr.typeError := by
  obtain ⟨out, hout⟩ := h
  rw [anonymize_transactions_append (badTx :: post) hout]
  have hbad : anonymize_one_tx cfg analyzer md5hex time_ms out.2 badTx =
      Except.error PyErr.typeError := rfl
  have herr : anonymize_transactions cfg analyzer md5hex time_ms out.2 (badTx :: post) =
      Except.error PyErr.typeError := by
    rw [anonymize_transactions, hbad]
    rfl
  rw [herr]
  rfl

/-- Witness for C5 (amended): the concrete two-record batch. -/
theorem c5_amended_witness :
    anonymize_transactions defaultCfg (fun _ => []) (fun _ => []) 5 ⟨[], []⟩
      ([goodTx] ++ badTx :: []) = Except.error PyErr.typeError :=
  c5_amended defaultCfg (fun _ => []) (fun _ => []) 5 ⟨[], []⟩ [goodTx] []
    ⟨([goodTx], ⟨[], []⟩), by with_unfolding_all decide⟩
